import Mathlib

/-!
Verification of the cot_proxy request/response transformation pipeline.

The Python source (`cot_proxy.py`) is shallowly embedded below:

* text is modelled as `List Char` (Python `str` is a sequence of code points);
* byte strings are modelled as `List Nat` (each element a byte value);
* `StreamBuffer` and its `process_chunk`/`flush` methods are modelled by
  `SB`, `SB.process_chunk` and `SB.flush`; the unbounded `while True` loop
  of `process_chunk` is modelled by `sbLoop` with an explicit fuel argument
  (the fuel `buf.length + 1` always suffices when the end tag is non-empty,
  which is exactly when the Python loop terminates);
* the single-pass removal `re.sub(re.escape(start) + ".*?" + re.escape(end),
  "", text, flags=re.DOTALL)` is modelled by `batchFilter` (leftmost match,
  lazy quantifier: the first occurrence of the start tag that is followed by
  an occurrence of the end tag, paired with the first such end occurrence);
* Python `str.find` is modelled by `pyFind` (`none` models `-1`).
-/

set_option maxRecDepth 4000

namespace CotProxy

/-- Model of Python `str.find(needle)` on code-point lists: the index of the
first position at which `needle` occurs as a contiguous substring, `none`
when there is none (Python returns `-1`).  An empty needle occurs at `0`. -/
def pyFind (needle : List Char) : List Char → Option Nat
  | [] => if needle.isPrefixOf [] then some 0 else none
  | c :: t => if needle.isPrefixOf (c :: t) then some 0 else (pyFind needle t).map (· + 1)

/-- Body of the `while True` loop of `StreamBuffer.process_chunk`
(cot_proxy.py lines 56-87), with the accumulated `output` returned instead
of threaded through a mutable variable.  One fuel unit is spent per loop
iteration that removes a complete `start_tag ... end_tag` span; when the end
tag is non-empty every such iteration strictly shrinks the buffer, so fuel
`buf.length + 1` is never exhausted (the Python loop would diverge exactly
in the remaining case of an empty end tag found at offset 0).
Branches, in source order:
* start tag not found (`find` returns `-1`): emit all but the trailing 1024
  characters when the buffer is longer than that, else emit nothing;
* start tag found at `start > 0`: emit the prefix, keep from the tag on;
* end tag not found in the trimmed buffer: keep everything, stop
  (the `> len(start_tag) + 4096` heuristic in the source is a no-op `pass`);
* end tag found at `end`: discard through `end + len(end_tag)`, loop. -/
def sbLoop (s e : List Char) : Nat → List Char → List Char × List Char
  | 0, buf => ([], buf)
  | fuel + 1, buf =>
    match pyFind s buf with
    | none =>
      if buf.length > 1024 then
        (buf.take (buf.length - 1024), buf.drop (buf.length - 1024))
      else ([], buf)
    | some start =>
      match pyFind e (buf.drop start) with
      | none => (buf.take start, buf.drop start)
      | some endIdx =>
        (buf.take start ++ (sbLoop s e fuel ((buf.drop start).drop (endIdx + e.length))).1,
          (sbLoop s e fuel ((buf.drop start).drop (endIdx + e.length))).2)

/-- State of a `StreamBuffer` instance (cot_proxy.py lines 43-47): the text
buffer plus the two tag literals fixed at construction. -/
structure SB where
  buffer : List Char
  start_tag : List Char
  end_tag : List Char
  deriving DecidableEq, Repr

/-- Model of `StreamBuffer.__init__`: empty buffer. -/
def SB.init (s e : List Char) : SB := ⟨[], s, e⟩

/-- Model of `StreamBuffer.process_chunk` on already-decoded text: append the chunk to
the buffer and run the scanning loop; returns the emitted text and the new
state.  (The UTF-8 decoding step `chunk.decode("utf-8", errors="replace")`
is modelled separately, byte level, by `SB.process_chunk_bytes` below.) -/
def SB.process_chunk (st : SB) (chunk : List Char) : List Char × SB :=
  let buf := st.buffer ++ chunk
  let r := sbLoop st.start_tag st.end_tag (buf.length + 1) buf
  (r.1, ⟨r.2, st.start_tag, st.end_tag⟩)

/-- Model of `StreamBuffer.flush` (cot_proxy.py lines 90-94): emit the whole buffer
verbatim and clear it. -/
def SB.flush (st : SB) : List Char × SB :=
  (st.buffer, ⟨[], st.start_tag, st.end_tag⟩)

/-- Feed a sequence of (already decoded) chunks through a `StreamBuffer`,
concatenating the emitted outputs, as the streaming generator
`generate_filtered_response` does (cot_proxy.py lines 461-469). -/
def feedAll (st : SB) : List (List Char) → List Char × SB
  | [] => ([], st)
  | c :: cs =>
    let r := st.process_chunk c
    let r2 := feedAll r.2 cs
    (r.1 ++ r2.1, r2.2)

/-- Full streaming run: all `process_chunk` outputs followed by the `flush`
output (cot_proxy.py lines 461-477). -/
def streamFilter (s e : List Char) (chunks : List (List Char)) : List Char :=
  let r := feedAll (SB.init s e) chunks
  r.1 ++ (r.2.flush).1

/-- Fueled model of
`re.sub(re.escape(start) + ".*?" + re.escape(end), "", text, re.DOTALL)`
(cot_proxy.py lines 442-443): the regex engine removes the leftmost match
first — the first position where the start tag occurs and some occurrence of
the end tag begins at or after the end of that start tag; the lazy `.*?`
pairs it with the first such end occurrence — then continues after the
removed span.  When the first start-tag occurrence has no end tag after it,
no later start-tag occurrence has one either, so there is no match at all.
Each removal is at least one character when the tags are not both empty, so
fuel `t.length + 1` suffices. -/
def batchF (s e : List Char) : Nat → List Char → List Char
  | 0, t => t
  | fuel + 1, t =>
    match pyFind s t with
    | none => t
    | some p =>
      match pyFind e (t.drop (p + s.length)) with
      | none => t
      | some q => t.take p ++ batchF s e fuel ((t.drop (p + s.length)).drop (q + e.length))

/-- The single-pass regex removal of all `start ... end` spans. -/
def batchFilter (s e t : List Char) : List Char :=
  batchF s e (t.length + 1) t

/-- No-overlap condition on a tag pair: no occurrence of the end tag can
begin strictly inside (or at the start of) an occurrence of the start tag.
It holds for the default pair `<think>` / `</think>` and is exactly what
makes the stream filter's end-tag search from offset 0 (cot_proxy.py line
74) agree with the regex engine's search from the end of the start tag. -/
def overlapFree (s e : List Char) : Prop :=
  ∀ p < s.length, ¬ e <+: s.drop p ∧ ¬ s.drop p <+: e

instance (s e : List Char) : Decidable (overlapFree s e) := by
  unfold overlapFree
  infer_instance

/-- The shapes a `StreamBuffer` buffer can have when `process_chunk` returns:
either the start tag does not occur in it at all, or it begins with the start
tag and the end tag does not occur in it.  Either way the single-pass regex
removal leaves such a buffer unchanged, which is why `flush` may emit it
verbatim. -/
def stateOK (s e b : List Char) : Prop :=
  pyFind s b = none ∨ (s <+: b ∧ pyFind e b = none)

/-- A UTF-8 continuation byte. -/
def isCont (b : Nat) : Bool := decide (0x80 ≤ b ∧ b ≤ 0xbf)

/-- Allowed range of the first continuation byte after lead byte `b`
(RFC 3629: the lead bytes `0xe0`, `0xed`, `0xf0`, `0xf4` restrict it to
exclude overlong forms and surrogates). -/
def cont1ok (b c1 : Nat) : Bool :=
  if b = 0xe0 then decide (0xa0 ≤ c1 ∧ c1 ≤ 0xbf)
  else if b = 0xed then decide (0x80 ≤ c1 ∧ c1 ≤ 0x9f)
  else if b = 0xf0 then decide (0x90 ≤ c1 ∧ c1 ≤ 0xbf)
  else if b = 0xf4 then decide (0x80 ≤ c1 ∧ c1 ≤ 0x8f)
  else isCont c1

/-- The replacement character U+FFFD produced by `errors="replace"`. -/
def replChar : Char := Char.ofNat 0xfffd

/-- UTF-8 encoding of one code point (RFC 3629); a Lean `Char` is a Unicode
scalar value, exactly what one element of a Python `str` is. -/
def utf8EncodeChar (c : Char) : List Nat :=
  if c.toNat < 0x80 then [c.toNat]
  else if c.toNat < 0x800 then [0xc0 + c.toNat / 64, 0x80 + c.toNat % 64]
  else if c.toNat < 0x10000 then
    [0xe0 + c.toNat / 4096, 0x80 + (c.toNat / 64) % 64, 0x80 + c.toNat % 64]
  else
    [0xf0 + c.toNat / 262144, 0x80 + (c.toNat / 4096) % 64, 0x80 + (c.toNat / 64) % 64,
      0x80 + c.toNat % 64]

/-- Model of Python `str.encode("utf-8")`. -/
def utf8Encode (cs : List Char) : List Nat := (cs.map utf8EncodeChar).flatten

/-- Model of Python `bytes.decode("utf-8", errors="replace")` (CPython
follows the Unicode "maximal subpart" recommendation): a rejected sequence
is replaced by a single U+FFFD covering the longest valid prefix of a
sequence, and decoding resumes at the offending byte. -/
def utf8DecodeReplace : List Nat → List Char
  | [] => []
  | b :: t =>
    if b < 0x80 then Char.ofNat b :: utf8DecodeReplace t
    else if b < 0xc2 then replChar :: utf8DecodeReplace t
    else if b ≤ 0xdf then
      match t with
      | [] => [replChar]
      | c1 :: t1 =>
        if isCont c1 then Char.ofNat ((b - 0xc0) * 64 + (c1 - 0x80)) :: utf8DecodeReplace t1
        else replChar :: utf8DecodeReplace (c1 :: t1)
    else if b ≤ 0xef then
      match t with
      | [] => [replChar]
      | c1 :: t1 =>
        if cont1ok b c1 then
          match t1 with
          | [] => [replChar]
          | c2 :: t2 =>
            if isCont c2 then
              Char.ofNat ((b - 0xe0) * 4096 + (c1 - 0x80) * 64 + (c2 - 0x80)) ::
                utf8DecodeReplace t2
            else replChar :: utf8DecodeReplace (c2 :: t2)
        else replChar :: utf8DecodeReplace (c1 :: t1)
    else if b ≤ 0xf4 then
      match t with
      | [] => [replChar]
      | c1 :: t1 =>
        if cont1ok b c1 then
          match t1 with
          | [] => [replChar]
          | c2 :: t2 =>
            if isCont c2 then
              match t2 with
              | [] => [replChar]
              | c3 :: t3 =>
                if isCont c3 then
                  Char.ofNat ((b - 0xf0) * 262144 + (c1 - 0x80) * 4096 + (c2 - 0x80) * 64 +
                      (c3 - 0x80)) :: utf8DecodeReplace t3
                else replChar :: utf8DecodeReplace (c3 :: t3)
            else replChar :: utf8DecodeReplace (c2 :: t2)
        else replChar :: utf8DecodeReplace (c1 :: t1)
    else replChar :: utf8DecodeReplace t

/-- Model of strict Python `bytes.decode("utf-8")`: `none` models the raised
`UnicodeDecodeError`. -/
def utf8DecodeStrict : List Nat → Option (List Char)
  | [] => some []
  | b :: t =>
    if b < 0x80 then (utf8DecodeStrict t).map (Char.ofNat b :: ·)
    else if b < 0xc2 then none
    else if b ≤ 0xdf then
      match t with
      | [] => none
      | c1 :: t1 =>
        if isCont c1 then
          (utf8DecodeStrict t1).map (Char.ofNat ((b - 0xc0) * 64 + (c1 - 0x80)) :: ·)
        else none
    else if b ≤ 0xef then
      match t with
      | [] => none
      | c1 :: t1 =>
        if cont1ok b c1 then
          match t1 with
          | [] => none
          | c2 :: t2 =>
            if isCont c2 then
              (utf8DecodeStrict t2).map
                (Char.ofNat ((b - 0xe0) * 4096 + (c1 - 0x80) * 64 + (c2 - 0x80)) :: ·)
            else none
        else none
    else if b ≤ 0xf4 then
      match t with
      | [] => none
      | c1 :: t1 =>
        if cont1ok b c1 then
          match t1 with
          | [] => none
          | c2 :: t2 =>
            if isCont c2 then
              match t2 with
              | [] => none
              | c3 :: t3 =>
                if isCont c3 then
                  (utf8DecodeStrict t3).map
                    (Char.ofNat ((b - 0xf0) * 262144 + (c1 - 0x80) * 4096 + (c2 - 0x80) * 64 +
                        (c3 - 0x80)) :: ·)
                else none
            else none
        else none
    else none

/-- Model of `StreamBuffer.process_chunk` at the byte level, exactly as in the source
(cot_proxy.py lines 49-88): the incoming byte chunk is decoded on its own
with `errors="replace"` before being appended to the text buffer, and the
emitted text is re-encoded. -/
def SB.process_chunk_bytes (st : SB) (chunk : List Nat) : List Nat × SB :=
  let r := st.process_chunk (utf8DecodeReplace chunk)
  (utf8Encode r.1, r.2)

/-- Model of `StreamBuffer.flush` at the byte level (cot_proxy.py line 94). -/
def SB.flush_bytes (st : SB) : List Nat × SB :=
  (utf8Encode st.buffer, ⟨[], st.start_tag, st.end_tag⟩)

/-- Byte-level streaming run of `generate_filtered_response`
(cot_proxy.py lines 461-477). -/
def feedAllBytes (st : SB) : List (List Nat) → List Nat × SB
  | [] => ([], st)
  | c :: cs =>
    let r := st.process_chunk_bytes c
    let r2 := feedAllBytes r.2 cs
    (r.1 ++ r2.1, r2.2)

/-- Concatenation of all byte outputs of the streaming pipeline, flush
included. -/
def streamFilterBytes (s e : List Char) (chunks : List (List Nat)) : List Nat :=
  let r := feedAllBytes (SB.init s e) chunks
  r.1 ++ (r.2.flush_bytes).1

/-- Result of a Python `float()` parse, modulo IEEE-754 rounding: the exact
rational value of the literal as an (unreduced) numerator/denominator pair,
an infinity, or a NaN. -/
inductive PyFloat where
  | finite (num : Int) (den : Nat)
  | infinite (neg : Bool)
  | nan
  deriving DecidableEq, Repr

/-- A Python value as produced by `convert_param_value`: `None`, a string, an
`int`, a `float`, or a `bool`. -/
inductive PyVal where
  | none
  | str (s : String)
  | int (n : Int)
  | float (f : PyFloat)
  | bool (b : Bool)
  deriving DecidableEq, Repr

/-- The three Python types appearing in `PARAM_TYPES`. -/
inductive PTy where
  | f
  | i
  | b
  deriving DecidableEq, Repr

/-- The `PARAM_TYPES` dict (cot_proxy.py lines 18-40). -/
def PARAM_TYPES : List (String × PTy) :=
  [("temperature", PTy.f), ("top_p", PTy.f), ("presence_penalty", PTy.f),
    ("frequency_penalty", PTy.f), ("repetition_penalty", PTy.f),
    ("top_k", PTy.i), ("max_tokens", PTy.i), ("n", PTy.i), ("seed", PTy.i),
    ("num_ctx", PTy.i), ("num_predict", PTy.i), ("repeat_last_n", PTy.i),
    ("batch_size", PTy.i),
    ("echo", PTy.b), ("stream", PTy.b), ("mirostat", PTy.b)]

/-- Model of `PARAM_TYPES.get(key)`. -/
def paramTypeGet (k : String) : Option PTy :=
  (PARAM_TYPES.find? (fun p => p.1 == k)).map (·.2)

/-- ASCII model of Python `str.lower` (the configuration keywords compared
against — `null`, `true` — are ASCII, and non-ASCII characters never lower
to ASCII letters relevant here). -/
def pyLowerChar (c : Char) : Char :=
  if 65 ≤ c.toNat ∧ c.toNat ≤ 90 then Char.ofNat (c.toNat + 32) else c

def pyLower (s : String) : String := ⟨s.data.map pyLowerChar⟩

/-- The six ASCII whitespace characters stripped by Python `str.strip()`. -/
def pyIsSpace (c : Char) : Bool :=
  decide (c.toNat = 32 ∨ c.toNat = 9 ∨ c.toNat = 10 ∨ c.toNat = 13 ∨ c.toNat = 11 ∨
    c.toNat = 12)

def pyStripL (l : List Char) : List Char :=
  ((l.dropWhile pyIsSpace).reverse.dropWhile pyIsSpace).reverse

/-- Python `str.strip()` (ASCII model). -/
def pyStrip (s : String) : String := ⟨pyStripL s.data⟩

def digVal (c : Char) : Nat := c.toNat - 48

/-- Continue a digit run in which single underscores may appear between
digits (PEP 515), accumulating the value; `none` when a non-digit (other
than a well-placed underscore) remains, as `int()` rejects any leftover. -/
def digitsRest (acc : Nat) : List Char → Option Nat
  | [] => some acc
  | '_' :: c :: t => if c.isDigit then digitsRest (acc * 10 + digVal c) t else Option.none
  | c :: t => if c.isDigit then digitsRest (acc * 10 + digVal c) t else Option.none

/-- Model of Python `int(value)` on decimal strings: optional whitespace,
optional sign, then decimal digits with optional single underscores between
digits.  (Python also accepts non-ASCII decimal digits; the configuration
strings in play are ASCII.) -/
def pyIntParse (s : String) : Option Int :=
  match pyStripL s.data with
  | '+' :: c :: t =>
    if c.isDigit then (digitsRest (digVal c) t).map Int.ofNat else Option.none
  | '-' :: c :: t =>
    if c.isDigit then (digitsRest (digVal c) t).map (fun n => -(n : Int)) else Option.none
  | c :: t => if c.isDigit then (digitsRest (digVal c) t).map Int.ofNat else Option.none
  | [] => Option.none

/-- Consume a digit run with single underscores between digits; returns the
accumulated value, the digit count, and the unconsumed remainder. -/
def takeDigits (acc cnt : Nat) : List Char → Nat × Nat × List Char
  | '_' :: c :: t =>
    if c.isDigit then takeDigits (acc * 10 + digVal c) (cnt + 1) t else (acc, cnt, '_' :: c :: t)
  | c :: t => if c.isDigit then takeDigits (acc * 10 + digVal c) (cnt + 1) t else (acc, cnt, c :: t)
  | [] => (acc, cnt, [])

/-- Scale an exact `num / den` magnitude by `10 ^ ex`. -/
def applyExp (num den : Nat) (ex : Int) : Nat × Nat :=
  if 0 ≤ ex then (num * 10 ^ ex.toNat, den) else (num, den * 10 ^ (-ex).toNat)

/-- Exponent part of a Python float literal (after the `e`): optional sign
then a non-empty digit run consuming the whole remainder. -/
def parseExp : List Char → Option Int
  | '+' :: c :: t => if c.isDigit then (digitsRest (digVal c) t).map Int.ofNat else Option.none
  | '-' :: c :: t =>
    if c.isDigit then (digitsRest (digVal c) t).map (fun n => -(n : Int)) else Option.none
  | c :: t => if c.isDigit then (digitsRest (digVal c) t).map Int.ofNat else Option.none
  | [] => Option.none

/-- Fraction-and-exponent tail of a float literal, given the integer part
value: handles `.digits`, `.`, `.digitsE±n`, `.E±n` and `E±n` forms; the
result is the exact magnitude as a numerator/denominator pair. -/
def pyFracExp (iv : Nat) : List Char → Option (Nat × Nat)
  | [] => some (iv, 1)
  | '.' :: rest2 =>
    match rest2 with
    | [] => some (iv, 1)
    | c2 :: t2 =>
      if c2.isDigit then
        match takeDigits (digVal c2) 1 t2 with
        | (fv, fc, rest3) =>
          match rest3 with
          | [] => some (iv * 10 ^ fc + fv, 10 ^ fc)
          | ec :: t3 =>
            if ec = 'e' ∨ ec = 'E' then
              (parseExp t3).map (fun ex => applyExp (iv * 10 ^ fc + fv) (10 ^ fc) ex)
            else Option.none
      else if c2 = 'e' ∨ c2 = 'E' then (parseExp t2).map (fun ex => applyExp iv 1 ex)
      else Option.none
  | ec :: t3 =>
    if ec = 'e' ∨ ec = 'E' then (parseExp t3).map (fun ex => applyExp iv 1 ex)
    else Option.none

/-- Magnitude of a Python float literal (no sign): `digits[.digits][exp]` or
`.digits[exp]`, digit runs admitting single underscores between digits. -/
def pyFloatMag : List Char → Option (Nat × Nat)
  | [] => Option.none
  | c :: t =>
    if c.isDigit then
      match takeDigits (digVal c) 1 t with
      | (iv, _, rest) => pyFracExp iv rest
    else if c = '.' then
      match t with
      | c2 :: t2 =>
        if c2.isDigit then
          match takeDigits (digVal c2) 1 t2 with
          | (fv, fc, rest3) =>
            match rest3 with
            | [] => some (fv, 10 ^ fc)
            | ec :: t3 =>
              if ec = 'e' ∨ ec = 'E' then
                (parseExp t3).map (fun ex => applyExp fv (10 ^ fc) ex)
              else Option.none
        else Option.none
      | [] => Option.none
    else Option.none

/-- Signed body of a Python float literal, also accepting the words `inf`,
`infinity` and `nan` case-insensitively. -/
def pyFloatSigned (neg : Bool) (l : List Char) : Option PyFloat :=
  let low := l.map pyLowerChar
  if low = "inf".data ∨ low = "infinity".data then some (PyFloat.infinite neg)
  else if low = "nan".data then some PyFloat.nan
  else (pyFloatMag l).map (fun m =>
    PyFloat.finite (if neg then -(m.1 : Int) else (m.1 : Int)) m.2)

/-- Model of Python `float(value)`: strip whitespace, optional sign, then a
float literal or an infinity/NaN word. -/
def pyFloatParse (s : String) : Option PyFloat :=
  match pyStripL s.data with
  | '+' :: t => pyFloatSigned false t
  | '-' :: t => pyFloatSigned true t
  | t => pyFloatSigned false t

/-- Model of `convert_param_value` (cot_proxy.py lines 96-112): empty or
case-insensitive `"null"` values become `None` whatever the key; unknown
keys keep the raw string; boolean keys compare the lowered value against
`"true"`; numeric keys attempt `int()`/`float()` and fall back to the raw
string when the parse raises.  The modelled function is total: the Python
function never raises, the only `try` failure being caught. -/
def convert_param_value (key value : String) : PyVal :=
  if value = "" ∨ pyLower value = "null" then PyVal.none
  else
    match paramTypeGet key with
    | Option.none => PyVal.str value
    | some PTy.b => PyVal.bool (pyLower value = "true")
    | some PTy.i =>
      match pyIntParse value with
      | some n => PyVal.int n
      | Option.none => PyVal.str value
    | some PTy.f =>
      match pyFloatParse value with
      | some f => PyVal.float f
      | Option.none => PyVal.str value

/-- A value stored in a per-model configuration dict (cot_proxy.py lines
217-228): the four tag/model/message control keys keep the raw string, the
`enable_think_tag_filtering` key stores the boolean comparison result, and
every other key goes through `convert_param_value`. -/
inductive CfgVal where
  | raw (s : List Char)
  | flag (b : Bool)
  | conv (v : PyVal)
  deriving DecidableEq, Repr

/-- Python `dict.get(k)` on a keyed association list. -/
def dget {α : Type} (d : List (List Char × α)) (k : List Char) : Option α :=
  (d.find? (fun p => p.1 == k)).map (·.2)

/-- Python `d[k] = v`: replace the value in place if the key exists (dicts
keep insertion order), else append the new binding. -/
def dsetk {α : Type} (d : List (List Char × α)) (k : List Char) (v : α) :
    List (List Char × α) :=
  match d with
  | [] => [(k, v)]
  | (k2, v2) :: t => if k2 = k then (k, v) :: t else (k2, v2) :: dsetk t k v

/-- Python `s.split(sep)` for a single-character separator. -/
def splitOnChar (sep : Char) : List Char → List (List Char)
  | [] => [[]]
  | c :: t =>
    if c = sep then [] :: splitOnChar sep t
    else
      match splitOnChar sep t with
      | [] => [[c]]
      | h :: r => (c :: h) :: r

/-- Python `s.split(sep, 1)` when a separator is present: the text before
the first `=` and the text after it. -/
def breakOnEq : List Char → Option (List Char × List Char)
  | [] => Option.none
  | c :: t =>
    if c = '=' then some ([], t) else (breakOnEq t).map (fun p => (c :: p.1, p.2))

/-- The four control keys stored as raw strings (cot_proxy.py line 223). -/
def controlRawKeys : List (List Char) :=
  ["think_tag_start".data, "think_tag_end".data, "upstream_model_name".data,
    "append_to_last_user_message".data]

/-- One `key=value` field of a configuration entry (cot_proxy.py lines
217-228); fields without `=` are skipped. -/
def parseParam (cfg : List (List Char × CfgVal)) (param : List Char) :
    List (List Char × CfgVal) :=
  match breakOnEq (pyStripL param) with
  | Option.none => cfg
  | some (k, v) =>
    let key := pyStripL k
    let value := pyStripL v
    if controlRawKeys.contains key then dsetk cfg key (CfgVal.raw value)
    else if key = "enable_think_tag_filtering".data then
      dsetk cfg key (CfgVal.flag (pyLower ⟨value⟩ = "true"))
    else dsetk cfg key (CfgVal.conv (convert_param_value ⟨key⟩ ⟨value⟩))

/-- One `;`-separated configuration entry (cot_proxy.py lines 206-228): the
trimmed entry must start with `model=`, else it is discarded; the first
comma field names the model, the remaining fields are parsed into its dict. -/
def parseEntry (entry : List Char) : Option (List Char × List (List Char × CfgVal)) :=
  let ent := pyStripL entry
  if ent.isEmpty || !("model=".data.isPrefixOf ent) then Option.none
  else
    match splitOnChar ',' ent with
    | [] => Option.none
    | p0 :: rest =>
      match breakOnEq p0 with
      | Option.none => Option.none
      | some (_, nm) => some (pyStripL nm, rest.foldl parseParam [])

/-- The `model_configs` table built from the `;`-separated entries
(cot_proxy.py lines 205-228); a later entry for the same model name
replaces the earlier one. -/
def parseLLMParamsEntries (entries : List (List Char)) :
    List (List Char × List (List Char × CfgVal)) :=
  entries.foldl
    (fun tbl ent =>
      match parseEntry ent with
      | Option.none => tbl
      | some (n, cfg) => dsetk tbl n cfg) []

/-- Parse a whole `LLM_PARAMS` string. -/
def parseLLMParams (s : String) : List (List Char × List (List Char × CfgVal)) :=
  parseLLMParamsEntries (splitOnChar ';' s.data)

/-- JSON values as Python's `json` module produces them (numbers restricted
to integers — the only numbers the proxy itself creates or reads). -/
inductive JVal where
  | null
  | bool (b : Bool)
  | num (n : Int)
  | str (s : List Char)
  | arr (xs : List JVal)
  | obj (fields : List (List Char × JVal))

mutual

def JVal.decEq : (a b : JVal) → Decidable (a = b)
  | JVal.null, JVal.null => isTrue rfl
  | JVal.bool x, JVal.bool y =>
    if h : x = y then isTrue (by rw [h]) else isFalse (fun hh => h (JVal.bool.inj hh))
  | JVal.num x, JVal.num y =>
    if h : x = y then isTrue (by rw [h]) else isFalse (fun hh => h (JVal.num.inj hh))
  | JVal.str x, JVal.str y =>
    if h : x = y then isTrue (by rw [h]) else isFalse (fun hh => h (JVal.str.inj hh))
  | JVal.arr xs, JVal.arr ys =>
    match JVal.decEqArr xs ys with
    | isTrue h => isTrue (by rw [h])
    | isFalse h => isFalse (fun hh => h (JVal.arr.inj hh))
  | JVal.obj fs, JVal.obj gs =>
    match JVal.decEqObj fs gs with
    | isTrue h => isTrue (by rw [h])
    | isFalse h => isFalse (fun hh => h (JVal.obj.inj hh))
  | JVal.null, JVal.bool _ => isFalse (fun h => JVal.noConfusion h)
  | JVal.null, JVal.num _ => isFalse (fun h => JVal.noConfusion h)
  | JVal.null, JVal.str _ => isFalse (fun h => JVal.noConfusion h)
  | JVal.null, JVal.arr _ => isFalse (fun h => JVal.noConfusion h)
  | JVal.null, JVal.obj _ => isFalse (fun h => JVal.noConfusion h)
  | JVal.bool _, JVal.null => isFalse (fun h => JVal.noConfusion h)
  | JVal.bool _, JVal.num _ => isFalse (fun h => JVal.noConfusion h)
  | JVal.bool _, JVal.str _ => isFalse (fun h => JVal.noConfusion h)
  | JVal.bool _, JVal.arr _ => isFalse (fun h => JVal.noConfusion h)
  | JVal.bool _, JVal.obj _ => isFalse (fun h => JVal.noConfusion h)
  | JVal.num _, JVal.null => isFalse (fun h => JVal.noConfusion h)
  | JVal.num _, JVal.bool _ => isFalse (fun h => JVal.noConfusion h)
  | JVal.num _, JVal.str _ => isFalse (fun h => JVal.noConfusion h)
  | JVal.num _, JVal.arr _ => isFalse (fun h => JVal.noConfusion h)
  | JVal.num _, JVal.obj _ => isFalse (fun h => JVal.noConfusion h)
  | JVal.str _, JVal.null => isFalse (fun h => JVal.noConfusion h)
  | JVal.str _, JVal.bool _ => isFalse (fun h => JVal.noConfusion h)
  | JVal.str _, JVal.num _ => isFalse (fun h => JVal.noConfusion h)
  | JVal.str _, JVal.arr _ => isFalse (fun h => JVal.noConfusion h)
  | JVal.str _, JVal.obj _ => isFalse (fun h => JVal.noConfusion h)
  | JVal.arr _, JVal.null => isFalse (fun h => JVal.noConfusion h)
  | JVal.arr _, JVal.bool _ => isFalse (fun h => JVal.noConfusion h)
  | JVal.arr _, JVal.num _ => isFalse (fun h => JVal.noConfusion h)
  | JVal.arr _, JVal.str _ => isFalse (fun h => JVal.noConfusion h)
  | JVal.arr _, JVal.obj _ => isFalse (fun h => JVal.noConfusion h)
  | JVal.obj _, JVal.null => isFalse (fun h => JVal.noConfusion h)
  | JVal.obj _, JVal.bool _ => isFalse (fun h => JVal.noConfusion h)
  | JVal.obj _, JVal.num _ => isFalse (fun h => JVal.noConfusion h)
  | JVal.obj _, JVal.str _ => isFalse (fun h => JVal.noConfusion h)
  | JVal.obj _, JVal.arr _ => isFalse (fun h => JVal.noConfusion h)

def JVal.decEqArr : (a b : List JVal) → Decidable (a = b)
  | [], [] => isTrue rfl
  | x :: xs, y :: ys =>
    match JVal.decEq x y, JVal.decEqArr xs ys with
    | isTrue h1, isTrue h2 => isTrue (by rw [h1, h2])
    | isFalse h1, _ => isFalse (fun hh => h1 (List.cons.inj hh).1)
    | _, isFalse h2 => isFalse (fun hh => h2 (List.cons.inj hh).2)
  | [], _ :: _ => isFalse (fun h => List.noConfusion h)
  | _ :: _, [] => isFalse (fun h => List.noConfusion h)

def JVal.decEqObj : (a b : List (List Char × JVal)) → Decidable (a = b)
  | [], [] => isTrue rfl
  | (k1, v1) :: xs, (k2, v2) :: ys =>
    match List.hasDecEq k1 k2, JVal.decEq v1 v2, JVal.decEqObj xs ys with
    | isTrue h1, isTrue h2, isTrue h3 => isTrue (by rw [h1, h2, h3])
    | isFalse h1, _, _ =>
      isFalse (fun hh => h1 (congrArg (fun p => p.1) (List.cons.inj hh).1))
    | _, isFalse h2, _ =>
      isFalse (fun hh => h2 (congrArg (fun p => p.2) (List.cons.inj hh).1))
    | _, _, isFalse h3 => isFalse (fun hh => h3 (List.cons.inj hh).2)
  | [], _ :: _ => isFalse (fun h => List.noConfusion h)
  | _ :: _, [] => isFalse (fun h => List.noConfusion h)

end

instance : DecidableEq JVal := JVal.decEq

/-- Python truthiness of a decoded JSON value. -/
def jTruthy : JVal → Bool
  | JVal.null => false
  | JVal.bool b => b
  | JVal.num n => decide (n ≠ 0)
  | JVal.str s => !s.isEmpty
  | JVal.arr xs => !xs.isEmpty
  | JVal.obj fs => !fs.isEmpty

/-- Model of `json_body.get(k)` on an object. -/
def jGet (fields : List (List Char × JVal)) (k : List Char) : Option JVal :=
  dget fields k

/-- The per-request rendering context resolved by the proxy: the selected
directive dict, the effective think tags, and the filtering flag. -/
structure ResolveResult where
  config : List (List Char × CfgVal)
  startTag : List Char
  endTag : List Char
  filtering : Bool
  deriving DecidableEq, Repr

/-- Model of `model_specific_config.get('think_tag_start', default)` — the parser
stores these keys as raw strings, so only `CfgVal.raw` can be found. -/
def cfgTagGet (c : List (List Char × CfgVal)) (k : List Char) (dflt : List Char) :
    List Char :=
  match dget c k with
  | some (CfgVal.raw s) => s
  | _ => dflt

/-- Model of `model_specific_config.get('enable_think_tag_filtering', False)` — the
parser stores this key as a boolean flag. -/
def cfgFlagGet (c : List (List Char × CfgVal)) (k : List Char) (dflt : Bool) : Bool :=
  match dget c k with
  | some (CfgVal.flag b) => b
  | _ => dflt

/-- Derive the rendering context from a selected configuration dict
(cot_proxy.py lines 235-237 and 266-268). -/
def applyConfig (c : List (List Char × CfgVal)) (ds de : List Char) : ResolveResult :=
  ⟨c, cfgTagGet c ("think_tag_start".data) ds, cfgTagGet c ("think_tag_end".data) de,
    cfgFlagGet c ("enable_think_tag_filtering".data) false⟩

/-- The `"default" in model_configs` fallback (cot_proxy.py lines 264-268). -/
def resolveDefault (tbl : List (List Char × List (List Char × CfgVal)))
    (ds de : List Char) (base : ResolveResult) : ResolveResult :=
  match dget tbl ("default".data) with
  | some c => applyConfig c ds de
  | Option.none => base

/-- Override resolution (cot_proxy.py lines 186-284): global tag defaults
come from the environment (`THINK_TAG` / `THINK_END_TAG`, lines 14-15) with
`<think>`/`</think>` as hardcoded fallback and filtering disabled; the whole
override block runs only when the request has a truthy JSON body and
`LLM_PARAMS` is set non-empty; a truthy string model name found in the table
selects that entry; a truthy model name not found selects nothing; a missing
or falsy model falls back to the `default` entry when one exists.  `none`
models an unhandled exception (`.get` on a non-dict body, or an unhashable
model value used in a dict membership test). -/
def resolveConfig (llmParams : Option String) (envStart envEnd : Option String)
    (body : Option JVal) : Option ResolveResult :=
  let ds := (envStart.getD ("<think>")).data
  let de := (envEnd.getD ("</think>")).data
  let base : ResolveResult := ⟨[], ds, de, false⟩
  match body with
  | Option.none => some base
  | some b =>
    if !(jTruthy b) then some base
    else
      match b with
      | JVal.obj fields =>
        match llmParams with
        | Option.none => some base
        | some lp =>
          if lp = "" then some base
          else
            let tbl := parseLLMParams lp
            match jGet fields ("model".data) with
            | some (JVal.str name) =>
              if name.isEmpty then some (resolveDefault tbl ds de base)
              else
                match dget tbl name with
                | some c => some (applyConfig c ds de)
                | Option.none => some base
            | some (JVal.num n) =>
              if n = 0 then some (resolveDefault tbl ds de base) else some base
            | some (JVal.bool bv) =>
              if bv then some base else some (resolveDefault tbl ds de base)
            | some JVal.null => some (resolveDefault tbl ds de base)
            | some (JVal.arr xs) =>
              if xs.isEmpty then some (resolveDefault tbl ds de base) else Option.none
            | some (JVal.obj fs) =>
              if fs.isEmpty then some (resolveDefault tbl ds de base) else Option.none
            | Option.none => some (resolveDefault tbl ds de base)
      | _ => Option.none

/-- The fresh user message `{"role": "user", "content": s}` appended by the
`append_to_last_user_message` handling (cot_proxy.py lines 291, 327, 330). -/
def newUserMsg (s : List Char) : JVal :=
  JVal.obj [("role".data, JVal.str ("user".data)), ("content".data, JVal.str s)]

/-- Replace the last element of a list (`messages[-1]` mutated in place). -/
def setLast {α : Type} : List α → α → List α
  | [], _ => []
  | [_], x => [x]
  | h :: t, x => h :: setLast t x

/-- Python `part['text'] += append_string` on the stored value: strings
concatenate, lists extend with the string's characters, anything else
raises `TypeError` (modelled as `none`). -/
def textAppend (v : JVal) (s : List Char) : Option JVal :=
  match v with
  | JVal.str t => some (JVal.str (t ++ s))
  | JVal.arr l => some (JVal.arr (l ++ s.map (fun ch => JVal.str [ch])))
  | _ => Option.none

/-- The loop test `isinstance(part, dict) and part.get('type') == 'text'
and 'text' in part` (cot_proxy.py line 308). -/
def isTextPart (p : JVal) : Bool :=
  match p with
  | JVal.obj d =>
    decide (jGet d ("type".data) = some (JVal.str ("text".data))) &&
      (jGet d ("text".data)).isSome
  | _ => false

/-- The backwards scan of cot_proxy.py lines 306-312 on the reversed
content list: the first text part found gets the append (outer `none` is a
raised `TypeError`, inner `none` means no text part was found). -/
def updateLastTextPartRev (s : List Char) : List JVal → Option (Option (List JVal))
  | [] => some Option.none
  | p :: t =>
    if isTextPart p then
      match p with
      | JVal.obj d =>
        match jGet d ("text".data) with
        | some tv =>
          match textAppend tv s with
          | some tv2 => some (some (JVal.obj (dsetk d ("text".data) tv2) :: t))
          | Option.none => Option.none
        | Option.none => Option.none
      | _ => Option.none
    else (updateLastTextPartRev s t).map (Option.map (p :: ·))

/-- The new `{'type': 'text', 'text': s}` part appended when no text part
exists (cot_proxy.py line 317). -/
def newTextPart (s : List Char) : JVal :=
  JVal.obj [("type".data, JVal.str ("text".data)), ("text".data, JVal.str s)]

/-- Append to a structured content list: mutate the last text part scanning
from the end, or append a new text part when none exists (cot_proxy.py
lines 301-318). -/
def appendToContentList (parts : List JVal) (s : List Char) : Option (List JVal) :=
  match updateLastTextPartRev s parts.reverse with
  | Option.none => Option.none
  | some (some revParts) => some revParts.reverse
  | some Option.none => some (parts ++ [newTextPart s])

/-- The `append_to_last_user_message` mutation of a JSON object body
(cot_proxy.py lines 288-331).  `none` models an exception the handler does
not catch (the proxy would answer 500): `setdefault('messages', [])`
returning a falsy non-list value, a truthy non-list `messages`, a last
message that is not an object, or a text part whose `text` value rejects
`+=`. -/
def appendToLastUserMessage (body : List (List Char × JVal)) (s : List Char) :
    Option (List (List Char × JVal)) :=
  match jGet body ("messages".data) with
  | Option.none => some (dsetk body ("messages".data) (JVal.arr [newUserMsg s]))
  | some v =>
    if !(jTruthy v) then
      match v with
      | JVal.arr [] => some (dsetk body ("messages".data) (JVal.arr [newUserMsg s]))
      | _ => Option.none
    else
      match v with
      | JVal.arr ms =>
        match ms.getLast? with
        | Option.none => Option.none
        | some last =>
          match last with
          | JVal.obj msg =>
            if jGet msg ("role".data) = some (JVal.str ("user".data)) then
              match jGet msg ("content".data) with
              | some (JVal.str c) =>
                some (dsetk body ("messages".data)
                  (JVal.arr (setLast ms
                    (JVal.obj (dsetk msg ("content".data) (JVal.str (c ++ s)))))))
              | some (JVal.arr parts) =>
                match appendToContentList parts s with
                | some parts2 =>
                  some (dsetk body ("messages".data)
                    (JVal.arr (setLast ms
                      (JVal.obj (dsetk msg ("content".data) (JVal.arr parts2))))))
                | Option.none => Option.none
              | _ =>
                some (dsetk body ("messages".data)
                  (JVal.arr (setLast ms
                    (JVal.obj (dsetk msg ("content".data) (JVal.str s))))))
            else
              some (dsetk body ("messages".data) (JVal.arr (ms ++ [newUserMsg s])))
          | _ => Option.none
      | _ => Option.none

/-- The guard `if append_string and json_body:` around the mutation
(cot_proxy.py lines 286-287): an empty directive or a falsy body skips it;
a truthy non-object body makes the mutation raise. -/
def applyAppendDirective (s : List Char) (body : Option JVal) : Option (Option JVal) :=
  if s.isEmpty then some body
  else
    match body with
    | some (JVal.obj fields) =>
      if jTruthy (JVal.obj fields) then
        (appendToLastUserMessage fields s).map (fun f => some (JVal.obj f))
      else some (some (JVal.obj fields))
    | some v => if jTruthy v then Option.none else some (some v)
    | Option.none => some Option.none

def openBrace : Char := Char.ofNat 0x7b

def closeBrace : Char := Char.ofNat 0x7d

/-- Skip JSON whitespace. -/
def jws (l : List Char) : List Char :=
  l.dropWhile (fun c => decide (c = ' ' ∨ c = '\t' ∨ c = '\n' ∨ c = '\r'))

def hexVal (c : Char) : Option Nat :=
  if '0' ≤ c ∧ c ≤ '9' then some (c.toNat - 48)
  else if 'a' ≤ c ∧ c ≤ 'f' then some (c.toNat - 87)
  else if 'A' ≤ c ∧ c ≤ 'F' then some (c.toNat - 55)
  else Option.none

/-- Body of a JSON string after the opening quote: the decoded characters
and the remainder after the closing quote.  `\\uXXXX` escapes outside the
surrogate range are supported (the fragment the proxy handles). -/
def jparseStr : List Char → Option (List Char × List Char)
  | [] => Option.none
  | '"' :: t => some ([], t)
  | '\\' :: 'u' :: h1 :: h2 :: h3 :: h4 :: t =>
    match hexVal h1, hexVal h2, hexVal h3, hexVal h4 with
    | some a, some b, some c, some d =>
      let n := a * 4096 + b * 256 + c * 16 + d
      if 0xd800 ≤ n ∧ n ≤ 0xdfff then Option.none
      else (jparseStr t).map (fun p => (Char.ofNat n :: p.1, p.2))
    | _, _, _, _ => Option.none
  | '\\' :: c :: t =>
    let dec : Option Char :=
      if c = '"' then some '"'
      else if c = '\\' then some '\\'
      else if c = '/' then some '/'
      else if c = 'b' then some (Char.ofNat 8)
      else if c = 'f' then some (Char.ofNat 12)
      else if c = 'n' then some '\n'
      else if c = 'r' then some '\r'
      else if c = 't' then some '\t'
      else Option.none
    match dec with
    | some c2 => (jparseStr t).map (fun p => (c2 :: p.1, p.2))
    | Option.none => Option.none
  | c :: t =>
    if c.toNat < 0x20 then Option.none
    else (jparseStr t).map (fun p => (c :: p.1, p.2))

/-- JSON natural number: `0` or a nonzero-leading digit run. -/
def jdigits (acc : Nat) : List Char → Nat × List Char
  | c :: t => if c.isDigit then jdigits (acc * 10 + digVal c) t else (acc, c :: t)
  | [] => (acc, [])

/-- JSON integer literal (a trailing `.`, `e` or `E` would make it a float,
outside the integer fragment modelled here). -/
def jparseNat : List Char → Option (Nat × List Char)
  | '0' :: c :: t => if c.isDigit then Option.none else some (0, c :: t)
  | ['0'] => some (0, [])
  | c :: t => if c.isDigit then some (jdigits (digVal c) t) else Option.none
  | [] => Option.none

def jparseNum (l : List Char) : Option (Int × List Char) :=
  match l with
  | '-' :: t =>
    match jparseNat t with
    | some (n, r) =>
      match r with
      | c :: _ => if c = '.' ∨ c = 'e' ∨ c = 'E' then Option.none else some (-(n : Int), r)
      | [] => some (-(n : Int), [])
    | Option.none => Option.none
  | t =>
    match jparseNat t with
    | some (n, r) =>
      match r with
      | c :: _ => if c = '.' ∨ c = 'e' ∨ c = 'E' then Option.none else some ((n : Int), r)
      | [] => some ((n : Int), [])
    | Option.none => Option.none

mutual

/-- Recursive JSON value parser (model of `json.loads` on the fragment the
proxy exchanges: objects, arrays, strings, integers, booleans, null);
`fuel` bounds the nesting and always suffices from `jparse`. -/
def jparseVal : Nat → List Char → Option (JVal × List Char)
  | 0, _ => Option.none
  | fuel + 1, l =>
    match jws l with
    | 'n' :: 'u' :: 'l' :: 'l' :: t => some (JVal.null, t)
    | 't' :: 'r' :: 'u' :: 'e' :: t => some (JVal.bool true, t)
    | 'f' :: 'a' :: 'l' :: 's' :: 'e' :: t => some (JVal.bool false, t)
    | '"' :: t => (jparseStr t).map (fun p => (JVal.str p.1, p.2))
    | '[' :: t =>
      match jws t with
      | ']' :: t2 => some (JVal.arr [], t2)
      | _ => (jparseArrItems fuel t).map (fun p => (JVal.arr p.1, p.2))
    | c :: t =>
      if c = openBrace then
        match jws t with
        | c2 :: t2 =>
          if c2 = closeBrace then some (JVal.obj [], t2)
          else (jparseObjItems fuel (c2 :: t2)).map (fun p => (JVal.obj p.1, p.2))
        | [] => Option.none
      else (jparseNum (c :: t)).map (fun p => (JVal.num p.1, p.2))
    | [] => Option.none

def jparseArrItems : Nat → List Char → Option (List JVal × List Char)
  | 0, _ => Option.none
  | fuel + 1, l =>
    match jparseVal fuel l with
    | Option.none => Option.none
    | some (v, r) =>
      match jws r with
      | ',' :: r2 => (jparseArrItems fuel r2).map (fun p => (v :: p.1, p.2))
      | ']' :: r2 => some ([v], r2)
      | _ => Option.none

def jparseObjItems : Nat → List Char → Option (List (List Char × JVal) × List Char)
  | 0, _ => Option.none
  | fuel + 1, l =>
    match jws l with
    | '"' :: t =>
      match jparseStr t with
      | Option.none => Option.none
      | some (k, r) =>
        match jws r with
        | ':' :: r2 =>
          match jparseVal fuel r2 with
          | Option.none => Option.none
          | some (v, r3) =>
            match jws r3 with
            | ',' :: r4 => (jparseObjItems fuel r4).map (fun p => ((k, v) :: p.1, p.2))
            | c :: r4 => if c = closeBrace then some ([(k, v)], r4) else Option.none
            | [] => Option.none
        | _ => Option.none
    | _ => Option.none

end

/-- Model of `json.loads`: parse a whole document, requiring only whitespace after
the value. -/
def jparse (s : String) : Option JVal :=
  match jparseVal (s.data.length + 2) s.data with
  | some (v, r) => if (jws r).isEmpty then some v else Option.none
  | Option.none => Option.none

def hexDig (d : Nat) : Char :=
  if d < 10 then Char.ofNat (48 + d) else Char.ofNat (87 + d)

def hex4 (n : Nat) : List Char :=
  [hexDig (n / 4096 % 16), hexDig (n / 256 % 16), hexDig (n / 16 % 16), hexDig (n % 16)]

/-- One character of a dumped JSON string, as `json.dumps` escapes it
(`ensure_ascii=True`: non-ASCII becomes `\\uXXXX`, astral characters a
surrogate pair). -/
def jdumpChar (c : Char) : List Char :=
  if c = '"' then ['\\', '"']
  else if c = '\\' then ['\\', '\\']
  else if c = '\n' then ['\\', 'n']
  else if c = '\r' then ['\\', 'r']
  else if c = '\t' then ['\\', 't']
  else if c.toNat = 8 then ['\\', 'b']
  else if c.toNat = 12 then ['\\', 'f']
  else if c.toNat < 0x20 ∨ c.toNat > 0x7e then
    if c.toNat < 0x10000 then '\\' :: 'u' :: hex4 c.toNat
    else
      ('\\' :: 'u' :: hex4 (0xd800 + (c.toNat - 0x10000) / 1024)) ++
        ('\\' :: 'u' :: hex4 (0xdc00 + (c.toNat - 0x10000) % 1024))
  else [c]

def jdumpStrChars (s : List Char) : List Char := (s.map jdumpChar).flatten

def natToDecAux : Nat → Nat → List Char
  | 0, _ => []
  | fuel + 1, n =>
    if n < 10 then [Char.ofNat (48 + n)]
    else natToDecAux fuel (n / 10) ++ [Char.ofNat (48 + n % 10)]

/-- Decimal rendering of a natural number (fuel `n + 1` always covers the
digit count). -/
def natToDec (n : Nat) : List Char := natToDecAux (n + 1) n

def intToDec (i : Int) : List Char :=
  if i < 0 then '-' :: natToDec (-i).toNat else natToDec i.toNat

mutual

/-- Model of `json.dumps` with its default separators (`", "` and `": "`). -/
def jdumpVal : JVal → List Char
  | JVal.null => "null".data
  | JVal.bool true => "true".data
  | JVal.bool false => "false".data
  | JVal.num n => intToDec n
  | JVal.str s => '"' :: (jdumpStrChars s ++ ['"'])
  | JVal.arr xs => '[' :: (jdumpArr xs ++ [']'])
  | JVal.obj fs => openBrace :: (jdumpObj fs ++ [closeBrace])

def jdumpArr : List JVal → List Char
  | [] => []
  | [x] => jdumpVal x
  | x :: y :: t => jdumpVal x ++ ',' :: ' ' :: jdumpArr (y :: t)

def jdumpObj : List (List Char × JVal) → List Char
  | [] => []
  | [(k, v)] => '"' :: (jdumpStrChars k ++ '"' :: ':' :: ' ' :: jdumpVal v)
  | (k, v) :: p :: t =>
    '"' :: (jdumpStrChars k ++ '"' :: ':' :: ' ' :: jdumpVal v) ++ ',' :: ' ' :: jdumpObj (p :: t)

end

def jdump (v : JVal) : String := ⟨jdumpVal v⟩

/-- The model names declared in `LLM_PARAMS`, re-extracted by the
model-listing handler itself (cot_proxy.py lines 410-415), one per
retained entry and in entry order. -/
def declaredModelEntries (lp : List Char) : List (List Char) :=
  (splitOnChar ';' lp).filterMap (fun ent =>
    let e2 := pyStripL ent
    if e2.isEmpty || !("model=".data.isPrefixOf e2) then Option.none
    else
      match splitOnChar ',' e2 with
      | [] => Option.none
      | p0 :: _ =>
        match breakOnEq p0 with
        | some (_, nm) => some (pyStripL nm)
        | Option.none => Option.none)

/-- A synthetic model descriptor (cot_proxy.py lines 418-423). -/
def pseudoModel (name : List Char) (now : Int) : JVal :=
  JVal.obj [("id".data, JVal.str name), ("object".data, JVal.str ("model".data)),
    ("created".data, JVal.num now), ("owned_by".data, JVal.str ("organization-owner".data))]

/-- The model-list augmentation (cot_proxy.py lines 396-437): parse the
decoded body; on parse failure pass the body through unchanged; with an
empty `LLM_PARAMS` just re-encode; otherwise append one synthetic
descriptor per retained configuration entry to the `data` array, creating
it when absent; any exception while merging (body not an object, or a
`data` member that is not a list) is caught and the original body kept. -/
def augmentModelsBody (lp : Option String) (now : Int) (decoded : String) : String :=
  let lpStr := lp.getD ""
  match jparse decoded with
  | Option.none => decoded
  | some v =>
    if lpStr = "" then jdump v
    else
      match v with
      | JVal.obj fields =>
        match dget fields ("data".data) with
        | some (JVal.arr xs) =>
          jdump (JVal.obj (dsetk fields ("data".data)
            (JVal.arr (xs ++ (declaredModelEntries lpStr.data).map (fun n => pseudoModel n now)))))
        | some _ => decoded
        | Option.none =>
          jdump (JVal.obj (dsetk fields ("data".data)
            (JVal.arr ((declaredModelEntries lpStr.data).map (fun n => pseudoModel n now)))))
      | _ => decoded

/-- The path guard `if path in ['models', 'v1/models']` (cot_proxy.py line
401) around the augmentation, for non-streamed responses. -/
def modelListStage (path : String) (lp : Option String) (now : Int) (decoded : String) :
    String :=
  if path = "models" ∨ path = "v1/models" then augmentModelsBody lp now decoded else decoded

/-- The three upstream connection failures the proxy catches separately
(cot_proxy.py lines 347-370): `requests.exceptions.Timeout`,
`requests.exceptions.SSLError`, `requests.exceptions.ConnectionError`. -/
inductive ConnectFailure where
  | timeout
  | sslError
  | connectionError
  deriving DecidableEq, Repr

/-- The HTTP status returned for each connection failure (cot_proxy.py
lines 352, 361, 368). -/
def failureStatus : ConnectFailure → Nat
  | ConnectFailure.timeout => 504
  | ConnectFailure.sslError => 502
  | ConnectFailure.connectionError => 502

/-- The `'\x7b"error": "' + error_msg + '"\x7d'` body returned for each
connection failure, with the f-string message of each clause. -/
def failureBody (f : ConnectFailure) (targetUrl msg : List Char) : List Char :=
  match f with
  | ConnectFailure.timeout =>
    "\x7b\"error\": \"Connection to ".data ++ targetUrl ++ (" timed out\"\x7d").data
  | ConnectFailure.sslError =>
    "\x7b\"error\": \"SSL verification failed: ".data ++ msg ++ ("\"\x7d").data
  | ConnectFailure.connectionError =>
    "\x7b\"error\": \"Failed to connect to ".data ++ targetUrl ++ (": ").data ++ msg ++
      ("\"\x7d").data

/-- An upstream response as the proxy sees it: HTTP status, optional
`Content-Type` header, raw body bytes. -/
structure UpstreamResponse where
  status : Nat
  contentType : Option (List Char)
  body : List Nat
  deriving DecidableEq, Repr

/-- What the proxy does with an upstream response: answer directly with a
text body, hand the response to the streaming generator, or raise (an
exception no handler catches, surfaced as a 500 by the framework). -/
inductive ProxyOutcome where
  | direct (status : Nat) (body : List Char) (contentType : List Char)
  | streamed (filtering : Bool) (startTag endTag : List Char) (status : Nat)
      (contentType : List Char)
  | crash
  deriving DecidableEq, Repr

/-- Response handling after a successful upstream connection (cot_proxy.py
lines 372-516): statuses at or above 400 are decoded strictly and returned
directly before any streaming or filtering decision; otherwise the
non-streamed path decodes with `errors="replace"`, applies the model-list
stage for listing paths, and filters only when enabled; a streamed reply
hands off to the generator with the active tags and flag. -/
def respond (resp : UpstreamResponse) (path : String) (lp : Option String) (now : Int)
    (isStream filtering : Bool) (sTag eTag : List Char) : ProxyOutcome :=
  if 400 ≤ resp.status then
    match utf8DecodeStrict resp.body with
    | some txt =>
      ProxyOutcome.direct resp.status txt (resp.contentType.getD ("application/json".data))
    | Option.none => ProxyOutcome.crash
  else if !isStream then
    let decoded := utf8DecodeReplace resp.body
    let decoded2 := (modelListStage path lp now ⟨decoded⟩).data
    let filtered := if filtering then batchFilter sTag eTag decoded2 else decoded2
    ProxyOutcome.direct resp.status filtered (resp.contentType.getD ("application/json".data))
  else
    ProxyOutcome.streamed filtering sTag eTag resp.status
      (resp.contentType.getD ("application/json".data))

theorem pyFind_none_iff {n : List Char} : ∀ {h : List Char},
    pyFind n h = none ↔ ∀ p, ¬ n <+: h.drop p := by
  intro h
  induction h with
  | nil =>
    by_cases hp : n <+: ([] : List Char)
    · simp [pyFind, hp]
    · simp [pyFind, hp]
  | cons c t ih =>
    by_cases hp : n <+: (c :: t)
    · simp only [pyFind, hp]
      simp only [ List.isPrefixOf_iff_prefix, if_pos hp]
      constructor
      · intro hcontra; exact absurd hcontra (by simp)
      · intro hall; exact absurd hp (by simpa using hall 0)
    · simp only [pyFind]
      simp only [ List.isPrefixOf_iff_prefix, if_neg hp, Option.map_eq_none']
      rw [ih]
      constructor
      · intro hall p
        cases p with
        | zero => simpa using hp
        | succ q => simpa using hall q
      · intro hall q
        simpa using hall (q + 1)

theorem pyFind_some_iff {n : List Char} : ∀ {h : List Char} {p : Nat},
    pyFind n h = some p ↔ (n <+: h.drop p ∧ ∀ q < p, ¬ n <+: h.drop q) := by
  intro h
  induction h with
  | nil =>
    intro p
    by_cases hp : n <+: ([] : List Char)
    · simp only [pyFind]
      simp only [ List.isPrefixOf_iff_prefix, if_pos hp]
      constructor
      · rintro h0
        cases h0
        simpa using hp
      · rintro ⟨hpre, hmin⟩
        cases p with
        | zero => rfl
        | succ q => exact absurd (by simpa using hp) (by simpa using hmin 0)
    · simp only [pyFind]
      simp only [ List.isPrefixOf_iff_prefix, if_neg hp]
      constructor
      · intro hcontra; cases hcontra
      · rintro ⟨hpre, hmin⟩
        exact absurd (by simpa using hpre) hp
  | cons c t ih =>
    intro p
    by_cases hp : n <+: (c :: t)
    · simp only [pyFind]
      simp only [ List.isPrefixOf_iff_prefix, if_pos hp]
      constructor
      · rintro h0
        cases h0
        exact ⟨by simpa using hp, by simp⟩
      · rintro ⟨hpre, hmin⟩
        cases p with
        | zero => rfl
        | succ q => exact absurd (by simpa using hp) (by simpa using hmin 0)
    · simp only [pyFind]
      simp only [ List.isPrefixOf_iff_prefix, if_neg hp, Option.map_eq_some']
      constructor
      · rintro ⟨q, hq, rfl⟩
        rcases ih.mp hq with ⟨hpre, hmin⟩
        refine ⟨by simpa using hpre, ?_⟩
        intro r hr
        cases r with
        | zero => simpa using hp
        | succ r2 =>
          have : r2 < q := by omega
          simpa using hmin r2 this
      · rintro ⟨hpre, hmin⟩
        cases p with
        | zero => exact absurd (by simpa using hpre) hp
        | succ q =>
          refine ⟨q, ih.mpr ⟨by simpa using hpre, ?_⟩, rfl⟩
          intro r hr
          have := hmin (r + 1) (by omega)
          simpa using this

example : batchFilter ("<think>".toList) ("</think>".toList) ("A<think>1</think>B<think>2</think>C".toList) = "ABC".toList := by decide

example : streamFilter ("<think>".toList) ("</think>".toList) ["A<think>1</th".toList, "ink>B".toList] = "AB".toList := by decide

example : streamFilter ("<think>".toList) ("</think>".toList) ["<think>x".toList] = "<think>x".toList := by decide

theorem pyFind_some_prefix_le {n t : List Char} (hn : n ≠ []) {p : Nat}
    (h : pyFind n t = some p) : p + n.length ≤ t.length := by
  have hpre : n <+: t.drop p := (pyFind_some_iff.mp h).1
  have hlen : n.length ≤ (t.drop p).length := hpre.length_le
  rw [List.length_drop] at hlen
  by_cases hp : p ≤ t.length
  · omega
  · exfalso
    rw [List.drop_of_length_le (by omega)] at hpre
    exact hn (List.prefix_nil.mp hpre)

theorem pyFind_drop_none {n t : List Char} (h : pyFind n t = none) (k : Nat) :
    pyFind n (t.drop k) = none := by
  rw [pyFind_none_iff] at h ⊢
  intro p
  rw [List.drop_drop]
  exact h (k + p)

theorem pyFind_drop_shift {n t : List Char} {q k : Nat} (h : pyFind n t = some q)
    (hk : k ≤ q) : pyFind n (t.drop k) = some (q - k) := by
  rcases pyFind_some_iff.mp h with ⟨hpre, hmin⟩
  rw [pyFind_some_iff]
  constructor
  · rw [List.drop_drop]
    have : k + (q - k) = q := by omega
    rw [this]; exact hpre
  · intro r hr
    rw [List.drop_drop]
    exact hmin (k + r) (by omega)

theorem pyFind_append_some {n t : List Char} (hn : n ≠ []) {p : Nat}
    (h : pyFind n t = some p) (rest : List Char) :
    pyFind n (t ++ rest) = some p := by
  rcases pyFind_some_iff.mp h with ⟨hpre, hmin⟩
  have hple : p + n.length ≤ t.length := pyFind_some_prefix_le hn h
  rw [pyFind_some_iff]
  constructor
  · rw [List.drop_append_of_le_length (by omega)]
    exact hpre.trans (List.prefix_append _ _)
  · intro q hq hcon
    rw [List.drop_append_of_le_length (by omega)] at hcon
    rcases List.prefix_or_prefix_of_prefix hcon (List.prefix_append _ _) with h1 | h1
    · exact hmin q hq h1
    · have := h1.length_le
      rw [List.length_drop] at this
      have hnl : n.length ≤ t.length - p := by
        have := hpre.length_le
        rw [List.length_drop] at this
        exact this
      omega

theorem pyFind_append_left {n u v : List Char}
    (h : ∀ q < u.length, ¬ n <+: (u ++ v).drop q) :
    pyFind n (u ++ v) = (pyFind n v).map (· + u.length) := by
  rcases hv : pyFind n v with _ | p
  · rw [Option.map_none', pyFind_none_iff]
    intro q
    by_cases hq : q < u.length
    · exact h q hq
    · rw [List.drop_append_eq_append_drop, List.drop_of_length_le (by omega),
        List.nil_append]
      exact pyFind_none_iff.mp hv (q - u.length)
  · rcases pyFind_some_iff.mp hv with ⟨hpre, hmin⟩
    rw [Option.map_some', pyFind_some_iff]
    constructor
    · rw [List.drop_append_eq_append_drop, List.drop_of_length_le (by omega),
        List.nil_append]
      have : p + u.length - u.length = p := by omega
      rw [this]; exact hpre
    · intro q hq
      by_cases hqu : q < u.length
      · exact h q hqu
      · rw [List.drop_append_eq_append_drop, List.drop_of_length_le (by omega),
          List.nil_append]
        exact hmin (q - u.length) (by omega)

theorem batchF_fuel {s e : List Char} (hs : s ≠ []) :
    ∀ (N : Nat) (t : List Char), t.length ≤ N → ∀ f, t.length < f →
      batchF s e f t = batchFilter s e t := by
  intro N
  induction N with
  | zero =>
    intro t ht f hf
    have ht0 : t = [] := List.length_eq_zero.mp (by omega)
    subst ht0
    rcases f with _ | f2
    · omega
    have hfind : pyFind s ([] : List Char) = none := by
      rw [pyFind_none_iff]
      intro p hcon
      exact hs (List.prefix_nil.mp (by simpa using hcon))
    simp only [batchFilter, batchF, hfind]
  | succ N ih =>
    intro t ht f hf
    rcases f with _ | f2
    · omega
    rcases hfind : pyFind s t with _ | p
    · simp only [batchFilter, batchF, hfind]
    rcases hfe : pyFind e (t.drop (p + s.length)) with _ | q
    · simp only [batchFilter, batchF, hfind, hfe]
    · have hple : p + s.length ≤ t.length := pyFind_some_prefix_le hs hfind
      have hslen : 0 < s.length := List.length_pos.mpr hs
      have hlt : ((t.drop (p + s.length)).drop (q + e.length)).length < t.length := by
        rw [List.length_drop, List.length_drop]
        omega
      simp only [batchFilter, batchF, hfind, hfe]
      rw [ih _ (by omega) f2 (by omega), ih _ (by omega) (t.length) (by omega)]

theorem batchFilter_fuel {s e : List Char} (hs : s ≠ []) {t : List Char} {f : Nat}
    (hf : t.length < f) : batchF s e f t = batchFilter s e t :=
  batchF_fuel hs t.length t (le_refl _) f hf

theorem batchFilter_append_skip {s e : List Char} (hs : s ≠ []) {u v : List Char}
    (h : ∀ q < u.length, ¬ s <+: (u ++ v).drop q) :
    batchFilter s e (u ++ v) = u ++ batchFilter s e v := by
  have hfind := pyFind_append_left h
  rcases hv : pyFind s v with _ | p
  · rw [hv, Option.map_none'] at hfind
    simp only [batchFilter, batchF, hfind, hv]
  · rw [hv, Option.map_some'] at hfind
    have hple : p + s.length ≤ v.length := pyFind_some_prefix_le hs hv
    have hdrop : (u ++ v).drop (p + u.length + s.length) = v.drop (p + s.length) := by
      rw [List.drop_append_eq_append_drop, List.drop_of_length_le (by omega),
        List.nil_append]
      congr 1
      omega
    rcases hfe : pyFind e (v.drop (p + s.length)) with _ | q
    · simp only [batchFilter, batchF, hfind, hv, hdrop, hfe]
    · have htake : (u ++ v).take (p + u.length) = u ++ v.take p := by
        rw [List.take_append_eq_append_take, List.take_of_length_le (by omega)]
        congr 2
        omega
      have hslen : 0 < s.length := List.length_pos.mpr hs
      have htail : ((v.drop (p + s.length)).drop (q + e.length)).length < v.length := by
        rw [List.length_drop, List.length_drop]
        omega
      simp only [batchFilter, batchF, hfind, hv, hdrop, hfe, htake]
      rw [batchFilter_fuel hs (by simp [List.length_append]; omega),
        batchFilter_fuel hs (by omega), List.append_assoc]

theorem no_end_in_start {s e : List Char} (hov : overlapFree s e)
    {w : List Char} (hsw : s <+: w) {p : Nat} (hp : p < s.length) :
    ¬ e <+: w.drop p := by
  intro hcon
  have hw : s ++ w.drop s.length = w := List.prefix_iff_eq_append.mp hsw
  have hdrop : w.drop p = s.drop p ++ w.drop s.length := by
    conv_lhs => rw [← hw]
    rw [List.drop_append_of_le_length (by omega)]
  rw [hdrop] at hcon
  rcases List.prefix_or_prefix_of_prefix hcon (List.prefix_append _ _) with h1 | h1
  · exact (hov p hp).1 h1
  · exact (hov p hp).2 h1

theorem sbLoop_correct {s e : List Char} (hs : s ≠ []) (he : e ≠ [])
    (hlen : s.length ≤ 1025) (hov : overlapFree s e) :
    ∀ (fuel : Nat) (b : List Char), b.length < fuel → ∀ rest : List Char,
      (sbLoop s e fuel b).1 ++ batchFilter s e ((sbLoop s e fuel b).2 ++ rest)
        = batchFilter s e (b ++ rest) := by
  intro fuel
  induction fuel with
  | zero => intro b hb; exact absurd hb (Nat.not_lt_zero _)
  | succ f ih =>
    intro b hb rest
    rcases hfind : pyFind s b with _ | p
    · by_cases hlong : b.length > 1024
      · simp only [sbLoop, hfind, if_pos hlong]
        have heq : b ++ rest = b.take (b.length - 1024) ++ (b.drop (b.length - 1024) ++ rest) := by
          rw [← List.append_assoc, List.take_append_drop]
        have hocc : ∀ q < (b.take (b.length - 1024)).length,
            ¬ s <+: ((b.take (b.length - 1024) ++ (b.drop (b.length - 1024) ++ rest)).drop q) := by
          rw [← heq]
          intro q hq hcon
          rw [List.length_take] at hq
          rw [List.drop_append_of_le_length (by omega)] at hcon
          rcases List.prefix_or_prefix_of_prefix hcon (List.prefix_append _ _) with h1 | h1
          · exact pyFind_none_iff.mp hfind q h1
          · have hlen1 := h1.length_le
            rw [List.length_drop] at hlen1
            have heq2 : b.drop q = s := by
              refine h1.eq_of_length_le ?_
              rw [List.length_drop]
              omega
            exact pyFind_none_iff.mp hfind q (heq2 ▸ List.prefix_refl _)
        conv_rhs => rw [heq]
        rw [batchFilter_append_skip hs hocc]
      · simp only [sbLoop, hfind, if_neg hlong, List.nil_append]
    · have hmins := (pyFind_some_iff.mp hfind).2
      have hpre_s : s <+: b.drop p := (pyFind_some_iff.mp hfind).1
      have hple : p + s.length ≤ b.length := pyFind_some_prefix_le hs hfind
      have hslen : 0 < s.length := List.length_pos.mpr hs
      rcases hfe : pyFind e (b.drop p) with _ | q2
      · simp only [sbLoop, hfind, hfe]
        have heq : b ++ rest = b.take p ++ (b.drop p ++ rest) := by
          rw [← List.append_assoc, List.take_append_drop]
        have hocc : ∀ q < (b.take p).length,
            ¬ s <+: ((b.take p ++ (b.drop p ++ rest)).drop q) := by
          rw [← heq]
          intro q hq hcon
          rw [List.length_take] at hq
          rw [List.drop_append_of_le_length (by omega)] at hcon
          rcases List.prefix_or_prefix_of_prefix hcon (List.prefix_append _ _) with h1 | h1
          · exact hmins q (by omega) h1
          · have hlen1 := h1.length_le
            rw [List.length_drop] at hlen1
            omega
        conv_rhs => rw [heq]
        rw [batchFilter_append_skip hs hocc]
      · have hpree : e <+: (b.drop p).drop q2 := (pyFind_some_iff.mp hfe).1
        have hq2ge : s.length ≤ q2 := by
          by_contra hq2
          push_neg at hq2
          exact no_end_in_start hov hpre_s hq2 hpree
        have hq2le : q2 + e.length ≤ b.length - p := by
          have h2 := pyFind_some_prefix_le he hfe
          rwa [List.length_drop] at h2
        have helen : 0 < e.length := List.length_pos.mpr he
        simp only [sbLoop, hfind, hfe]
        have hlb2 : ((b.drop p).drop (q2 + e.length)).length < f := by
          rw [List.length_drop, List.length_drop]
          omega
        rw [List.append_assoc, ih _ hlb2 rest]
        have hfind2 : pyFind s (b ++ rest) = some p := pyFind_append_some hs hfind rest
        have hshift : pyFind e (b.drop (p + s.length)) = some (q2 - s.length) := by
          have h1 := pyFind_drop_shift hfe hq2ge
          rwa [List.drop_drop] at h1
        have hdropbr : (b ++ rest).drop (p + s.length) = b.drop (p + s.length) ++ rest :=
          List.drop_append_of_le_length (by omega)
        have hfe2 : pyFind e ((b ++ rest).drop (p + s.length)) = some (q2 - s.length) := by
          rw [hdropbr]
          exact pyFind_append_some he hshift rest
        have htake : (b ++ rest).take p = b.take p := List.take_append_of_le_length (by omega)
        have htail : ((b ++ rest).drop (p + s.length)).drop ((q2 - s.length) + e.length)
            = (b.drop p).drop (q2 + e.length) ++ rest := by
          rw [hdropbr, List.drop_append_of_le_length (by rw [List.length_drop]; omega),
            List.drop_drop, List.drop_drop]
          congr 2
          omega
        conv_rhs => simp only [batchFilter]
        simp only [batchF, hfind2, hfe2, htake, htail]
        rw [batchFilter_fuel hs (by
          rw [List.length_append, List.length_append, List.length_drop, List.length_drop]
          omega)]

theorem pyFind_nil_of_ne {s : List Char} (hs : s ≠ []) : pyFind s ([] : List Char) = none := by
  rw [pyFind_none_iff]
  intro p hcon
  exact hs (List.prefix_nil.mp (by simpa using hcon))

theorem sbLoop_stateOK {s e : List Char} (he : e ≠ []) :
    ∀ (fuel : Nat) (b : List Char), b.length < fuel → stateOK s e (sbLoop s e fuel b).2 := by
  intro fuel
  induction fuel with
  | zero => intro b hb; exact absurd hb (Nat.not_lt_zero _)
  | succ f ih =>
    intro b hb
    rcases hfind : pyFind s b with _ | p
    · by_cases hlong : b.length > 1024
      · simp only [sbLoop, hfind, if_pos hlong]
        exact Or.inl (pyFind_drop_none hfind _)
      · simp only [sbLoop, hfind, if_neg hlong]
        exact Or.inl hfind
    · rcases hfe : pyFind e (b.drop p) with _ | q2
      · simp only [sbLoop, hfind, hfe]
        exact Or.inr ⟨(pyFind_some_iff.mp hfind).1, hfe⟩
      · have helen : 0 < e.length := List.length_pos.mpr he
        have hq2le : q2 + e.length ≤ b.length - p := by
          have h2 := pyFind_some_prefix_le he hfe
          rwa [List.length_drop] at h2
        simp only [sbLoop, hfind, hfe]
        exact ih _ (by rw [List.length_drop, List.length_drop]; omega)

theorem stateOK_batchFilter {s e b : List Char} (h : stateOK s e b) :
    batchFilter s e b = b := by
  rcases h with h | ⟨hpre, hfe⟩
  · simp only [batchFilter, batchF, h]
  · have hfind : pyFind s b = some 0 := by
      rw [pyFind_some_iff]
      exact ⟨by simpa using hpre, by omega⟩
    have hfe2 : pyFind e (b.drop (0 + s.length)) = none := by
      rw [Nat.zero_add]
      exact pyFind_drop_none hfe _
    simp only [batchFilter, batchF, hfind, hfe2]

theorem feedAll_correct {s e : List Char} (hs : s ≠ []) (he : e ≠ [])
    (hlen : s.length ≤ 1025) (hov : overlapFree s e) :
    ∀ (cs : List (List Char)) (b : List Char), stateOK s e b →
      (feedAll ⟨b, s, e⟩ cs).1 ++ ((feedAll ⟨b, s, e⟩ cs).2).buffer
        = batchFilter s e (b ++ cs.flatten) := by
  intro cs
  induction cs with
  | nil =>
    intro b hb
    simp only [feedAll, List.flatten_nil, List.append_nil, List.nil_append]
    exact (stateOK_batchFilter hb).symm
  | cons c cs ih =>
    intro b hb
    simp only [feedAll, SB.process_chunk, List.flatten_cons]
    rw [List.append_assoc,
      ih _ (sbLoop_stateOK he ((b ++ c).length + 1) (b ++ c) (by omega)),
      sbLoop_correct hs he hlen hov ((b ++ c).length + 1) (b ++ c) (by omega),
      List.append_assoc]

/-- Streaming filtering and the single-pass regex removal agree on any
chunking, provided the tags are non-empty, the start tag fits in the 1024
character retention window, and no end-tag occurrence can begin inside a
start-tag occurrence. -/
theorem streamFilter_eq_batchFilter {s e : List Char} (hs : s ≠ []) (he : e ≠ [])
    (hlen : s.length ≤ 1025) (hov : overlapFree s e) (chunks : List (List Char)) :
    streamFilter s e chunks = batchFilter s e chunks.flatten := by
  have h0 : stateOK s e [] := Or.inl (pyFind_nil_of_ne hs)
  have h := feedAll_correct hs he hlen hov chunks [] h0
  simpa only [streamFilter, SB.init, SB.flush, List.nil_append] using h

theorem pyFind_nil_needle (t : List Char) : pyFind [] t = some 0 := by
  cases t with
  | nil => rfl
  | cons c t => rfl

theorem sbLoop_nil_start (e : List Char) :
    ∀ (fuel : Nat) (buf : List Char),
      sbLoop [] e fuel buf = ([], batchF [] e fuel buf) := by
  intro fuel
  induction fuel with
  | zero => intro buf; rfl
  | succ f ih =>
    intro buf
    rcases hfe : pyFind e buf with _ | q <;>
      simp only [sbLoop, batchF, pyFind_nil_needle, List.drop_zero, List.length_nil,
        Nat.add_zero, hfe, List.take_zero, List.nil_append, ih]

theorem batchF_fuel_nil {e : List Char} (he : e ≠ []) :
    ∀ (N : Nat) (t : List Char), t.length ≤ N → ∀ f, t.length < f →
      batchF [] e f t = batchFilter [] e t := by
  intro N
  induction N with
  | zero =>
    intro t ht f hf
    have ht0 : t = [] := List.length_eq_zero.mp (by omega)
    subst ht0
    rcases f with _ | f2
    · omega
    simp only [batchFilter, batchF, pyFind_nil_needle, List.drop_nil, pyFind_nil_of_ne he]
  | succ N ih =>
    intro t ht f hf
    rcases f with _ | f2
    · omega
    rcases hfe : pyFind e t with _ | q
    · simp only [batchFilter, batchF, pyFind_nil_needle, List.length_nil, Nat.add_zero,
        List.drop_zero, hfe]
    · have hqle : q + e.length ≤ t.length := pyFind_some_prefix_le he hfe
      have helen : 0 < e.length := List.length_pos.mpr he
      simp only [batchFilter, batchF, pyFind_nil_needle, List.length_nil, Nat.add_zero,
        List.drop_zero, hfe, List.take_zero, List.nil_append]
      have hlt : (t.drop (q + e.length)).length < t.length := by
        rw [List.length_drop]; omega
      rw [ih _ (by omega) f2 (by omega), ih _ (by omega) (t.length) (by omega)]

theorem batchFilter_fuel_nil {e : List Char} (he : e ≠ []) {t : List Char} {f : Nat}
    (hf : t.length < f) : batchF [] e f t = batchFilter [] e t :=
  batchF_fuel_nil he t.length t (le_refl _) f hf

theorem batchFilter_nil_step {e : List Char} (he : e ≠ []) {t : List Char} {q : Nat}
    (hfe : pyFind e t = some q) :
    batchFilter [] e t = batchFilter [] e (t.drop (q + e.length)) := by
  have hqle : q + e.length ≤ t.length := pyFind_some_prefix_le he hfe
  have helen : 0 < e.length := List.length_pos.mpr he
  conv_lhs => simp only [batchFilter]
  simp only [batchF, pyFind_nil_needle, List.length_nil, Nat.add_zero, List.drop_zero, hfe,
    List.take_zero, List.nil_append]
  exact batchFilter_fuel_nil he (by rw [List.length_drop]; omega)

theorem batchFilter_nil_step_append {e : List Char} (he : e ≠ []) {x : List Char} {q : Nat}
    (hfe : pyFind e x = some q) (y : List Char) :
    batchFilter [] e (x ++ y) = batchFilter [] e (x.drop (q + e.length) ++ y) := by
  have hqle : q + e.length ≤ x.length := pyFind_some_prefix_le he hfe
  have helen : 0 < e.length := List.length_pos.mpr he
  have hfey : pyFind e (x ++ y) = some q := pyFind_append_some he hfe y
  have hdrop : (x ++ y).drop (q + e.length) = x.drop (q + e.length) ++ y :=
    List.drop_append_of_le_length (by omega)
  conv_lhs => simp only [batchFilter]
  simp only [batchF, pyFind_nil_needle, List.length_nil, Nat.add_zero, List.drop_zero, hfey,
    List.take_zero, List.nil_append, hdrop]
  exact batchFilter_fuel_nil he (by
    rw [List.length_append, List.length_append, List.length_drop]
    omega)

theorem batchFilter_nil_no_end {e : List Char} (he : e ≠ []) :
    ∀ (N : Nat) (t : List Char), t.length ≤ N →
      pyFind e (batchFilter [] e t) = none := by
  intro N
  induction N with
  | zero =>
    intro t ht
    have ht0 : t = [] := List.length_eq_zero.mp (by omega)
    subst ht0
    have hOK : stateOK [] e [] := Or.inr ⟨List.nil_prefix, pyFind_nil_of_ne he⟩
    rw [stateOK_batchFilter hOK]
    exact pyFind_nil_of_ne he
  | succ N ih =>
    intro t ht
    rcases hfe : pyFind e t with _ | q
    · have hOK : stateOK [] e t := Or.inr ⟨List.nil_prefix, hfe⟩
      rw [stateOK_batchFilter hOK]
      exact hfe
    · have hqle : q + e.length ≤ t.length := pyFind_some_prefix_le he hfe
      have helen : 0 < e.length := List.length_pos.mpr he
      rw [batchFilter_nil_step he hfe]
      exact ih _ (by rw [List.length_drop]; omega)

theorem batchFilter_nil_append {e : List Char} (he : e ≠ []) :
    ∀ (N : Nat) (x : List Char), x.length ≤ N → ∀ y : List Char,
      batchFilter [] e (batchFilter [] e x ++ y) = batchFilter [] e (x ++ y) := by
  intro N
  induction N with
  | zero =>
    intro x hx y
    have hx0 : x = [] := List.length_eq_zero.mp (by omega)
    subst hx0
    have hOK : stateOK [] e ([] : List Char) := Or.inr ⟨List.nil_prefix, pyFind_nil_of_ne he⟩
    rw [stateOK_batchFilter hOK]
  | succ N ih =>
    intro x hx y
    rcases hfe : pyFind e x with _ | q
    · have hOK : stateOK [] e x := Or.inr ⟨List.nil_prefix, hfe⟩
      rw [stateOK_batchFilter hOK]
    · have hqle : q + e.length ≤ x.length := pyFind_some_prefix_le he hfe
      have helen : 0 < e.length := List.length_pos.mpr he
      rw [batchFilter_nil_step he hfe, batchFilter_nil_step_append he hfe y]
      exact ih _ (by rw [List.length_drop]; omega) y

theorem feedAll_nil_start {e : List Char} (he : e ≠ []) :
    ∀ (cs : List (List Char)) (b : List Char), pyFind e b = none →
      feedAll ⟨b, [], e⟩ cs = ([], ⟨batchFilter [] e (b ++ cs.flatten), [], e⟩) := by
  intro cs
  induction cs with
  | nil =>
    intro b hb
    have hOK : stateOK [] e b := Or.inr ⟨List.nil_prefix, hb⟩
    simp only [feedAll, List.flatten_nil, List.append_nil, stateOK_batchFilter hOK]
  | cons c cs ih =>
    intro b hb
    have hproc : SB.process_chunk ⟨b, [], e⟩ c
        = ([], ⟨batchFilter [] e (b ++ c), [], e⟩) := by
      simp only [SB.process_chunk, sbLoop_nil_start]
      rfl
    have hb2 : pyFind e (batchFilter [] e (b ++ c)) = none :=
      batchFilter_nil_no_end he (b ++ c).length (b ++ c) (le_refl _)
    simp only [feedAll, hproc, List.flatten_cons, ih _ hb2, List.nil_append,
      batchFilter_nil_append he (b ++ c).length (b ++ c) (le_refl _), List.append_assoc]

theorem streamFilter_nil_start {e : List Char} (he : e ≠ []) (chunks : List (List Char)) :
    streamFilter [] e chunks = batchFilter [] e chunks.flatten := by
  have h := feedAll_nil_start he chunks [] (pyFind_nil_of_ne he)
  simp only [streamFilter, SB.init, h, SB.flush, List.nil_append]

theorem char_valid_facts (c : Char) :
    c.toNat < 0xd800 ∨ (0xdfff < c.toNat ∧ c.toNat < 0x110000) := by
  have h := c.valid
  unfold UInt32.isValidChar Nat.isValidChar at h
  exact h

theorem utf8Encode_append (a b : List Char) :
    utf8Encode (a ++ b) = utf8Encode a ++ utf8Encode b := by
  simp [utf8Encode]

theorem utf8DecodeReplace_encChar (c : Char) (r : List Nat) :
    utf8DecodeReplace (utf8EncodeChar c ++ r) = c :: utf8DecodeReplace r := by
  have hvalid := char_valid_facts c
  by_cases h1 : c.toNat < 0x80
  · simp only [utf8EncodeChar, if_pos h1, List.cons_append, List.nil_append]
    rw [utf8DecodeReplace.eq_def]
    simp only [if_pos h1, Char.ofNat_toNat]
  by_cases h2 : c.toNat < 0x800
  · simp only [utf8EncodeChar, if_neg h1, if_pos h2, List.cons_append, List.nil_append]
    have hd1 : 2 ≤ c.toNat / 64 := by omega
    have hd2 : c.toNat / 64 ≤ 0x1f := by omega
    have hm : c.toNat % 64 < 64 := Nat.mod_lt _ (by omega)
    rw [utf8DecodeReplace.eq_def]
    simp only [if_neg (by omega : ¬(0xc0 + c.toNat / 64 < 0x80)),
      if_neg (by omega : ¬(0xc0 + c.toNat / 64 < 0xc2)),
      if_pos (by omega : 0xc0 + c.toNat / 64 ≤ 0xdf)]
    rw [if_pos (by simp only [isCont, decide_eq_true_eq]; omega)]
    have hmod : c.toNat % 64 + 64 * (c.toNat / 64) = c.toNat := Nat.mod_add_div _ _
    have hval : 0xc0 + c.toNat / 64 - 0xc0 = c.toNat / 64 := by omega
    have hval2 : 0x80 + c.toNat % 64 - 0x80 = c.toNat % 64 := by omega
    rw [hval, hval2, show c.toNat / 64 * 64 + c.toNat % 64 = c.toNat from by omega,
      Char.ofNat_toNat]
  by_cases h3 : c.toNat < 0x10000
  · simp only [utf8EncodeChar, if_neg h1, if_neg h2, if_pos h3, List.cons_append,
      List.nil_append]
    have hq1 : c.toNat / 64 % 64 + 64 * (c.toNat / 4096) = c.toNat / 64 := by
      rw [show (4096 : Nat) = 64 * 64 from rfl, ← Nat.div_div_eq_div_mul]
      exact Nat.mod_add_div _ _
    have hq0 : c.toNat % 64 + 64 * (c.toNat / 64) = c.toNat := Nat.mod_add_div _ _
    have hd1 : c.toNat / 4096 ≤ 0xf := by omega
    have hm1 : c.toNat / 64 % 64 < 64 := Nat.mod_lt _ (by omega)
    have hm0 : c.toNat % 64 < 64 := Nat.mod_lt _ (by omega)
    rw [utf8DecodeReplace.eq_def]
    simp only [if_neg (by omega : ¬(0xe0 + c.toNat / 4096 < 0x80)),
      if_neg (by omega : ¬(0xe0 + c.toNat / 4096 < 0xc2)),
      if_neg (by omega : ¬(0xe0 + c.toNat / 4096 ≤ 0xdf)),
      if_pos (by omega : 0xe0 + c.toNat / 4096 ≤ 0xef)]
    rw [if_pos ?hc1]
    case hc1 =>
      simp only [cont1ok, isCont]
      split
      · next he0 =>
        rw [decide_eq_true_eq]
        omega
      split
      · next hed =>
        rw [decide_eq_true_eq]
        omega
      split
      · next hf0 => omega
      split
      · next hf4 => omega
      · rw [decide_eq_true_eq]
        omega
    rw [if_pos (by simp only [isCont, decide_eq_true_eq]; omega)]
    rw [show 0xe0 + c.toNat / 4096 - 0xe0 = c.toNat / 4096 from by omega,
      show 0x80 + c.toNat / 64 % 64 - 0x80 = c.toNat / 64 % 64 from by omega,
      show 0x80 + c.toNat % 64 - 0x80 = c.toNat % 64 from by omega,
      show c.toNat / 4096 * 4096 + c.toNat / 64 % 64 * 64 + c.toNat % 64 = c.toNat from by omega,
      Char.ofNat_toNat]
  · simp only [utf8EncodeChar, if_neg h1, if_neg h2, if_neg h3, List.cons_append,
      List.nil_append]
    have hlt : c.toNat < 0x110000 := by omega
    have hq2 : c.toNat / 4096 % 64 + 64 * (c.toNat / 262144) = c.toNat / 4096 := by
      rw [show (262144 : Nat) = 4096 * 64 from rfl, ← Nat.div_div_eq_div_mul]
      exact Nat.mod_add_div _ _
    have hq1 : c.toNat / 64 % 64 + 64 * (c.toNat / 4096) = c.toNat / 64 := by
      rw [show (4096 : Nat) = 64 * 64 from rfl, ← Nat.div_div_eq_div_mul]
      exact Nat.mod_add_div _ _
    have hq0 : c.toNat % 64 + 64 * (c.toNat / 64) = c.toNat := Nat.mod_add_div _ _
    have hd1 : c.toNat / 262144 ≤ 4 := by omega
    have hm2 : c.toNat / 4096 % 64 < 64 := Nat.mod_lt _ (by omega)
    have hm1 : c.toNat / 64 % 64 < 64 := Nat.mod_lt _ (by omega)
    have hm0 : c.toNat % 64 < 64 := Nat.mod_lt _ (by omega)
    rw [utf8DecodeReplace.eq_def]
    simp only [if_neg (by omega : ¬(0xf0 + c.toNat / 262144 < 0x80)),
      if_neg (by omega : ¬(0xf0 + c.toNat / 262144 < 0xc2)),
      if_neg (by omega : ¬(0xf0 + c.toNat / 262144 ≤ 0xdf)),
      if_neg (by omega : ¬(0xf0 + c.toNat / 262144 ≤ 0xef)),
      if_pos (by omega : 0xf0 + c.toNat / 262144 ≤ 0xf4)]
    rw [if_pos ?hc1]
    case hc1 =>
      simp only [cont1ok, isCont]
      split
      · next he0 => omega
      split
      · next hed => omega
      split
      · next hf0 =>
        rw [decide_eq_true_eq]
        omega
      split
      · next hf4 =>
        rw [decide_eq_true_eq]
        omega
      · rw [decide_eq_true_eq]
        omega
    rw [if_pos (by simp only [isCont, decide_eq_true_eq]; omega)]
    rw [if_pos (by simp only [isCont, decide_eq_true_eq]; omega)]
    rw [show 0xf0 + c.toNat / 262144 - 0xf0 = c.toNat / 262144 from by omega,
      show 0x80 + c.toNat / 4096 % 64 - 0x80 = c.toNat / 4096 % 64 from by omega,
      show 0x80 + c.toNat / 64 % 64 - 0x80 = c.toNat / 64 % 64 from by omega,
      show 0x80 + c.toNat % 64 - 0x80 = c.toNat % 64 from by omega,
      show c.toNat / 262144 * 262144 + c.toNat / 4096 % 64 * 4096 + c.toNat / 64 % 64 * 64 +
        c.toNat % 64 = c.toNat from by omega,
      Char.ofNat_toNat]

theorem utf8DecodeStrict_encChar (c : Char) (r : List Nat) :
    utf8DecodeStrict (utf8EncodeChar c ++ r) = (utf8DecodeStrict r).map (c :: ·) := by
  have hvalid := char_valid_facts c
  by_cases h1 : c.toNat < 0x80
  · simp only [utf8EncodeChar, if_pos h1, List.cons_append, List.nil_append]
    rw [utf8DecodeStrict.eq_def]
    simp only [if_pos h1, Char.ofNat_toNat]
  by_cases h2 : c.toNat < 0x800
  · simp only [utf8EncodeChar, if_neg h1, if_pos h2, List.cons_append, List.nil_append]
    have hd1 : 2 ≤ c.toNat / 64 := by omega
    have hd2 : c.toNat / 64 ≤ 0x1f := by omega
    have hm : c.toNat % 64 < 64 := Nat.mod_lt _ (by omega)
    rw [utf8DecodeStrict.eq_def]
    simp only [if_neg (by omega : ¬(0xc0 + c.toNat / 64 < 0x80)),
      if_neg (by omega : ¬(0xc0 + c.toNat / 64 < 0xc2)),
      if_pos (by omega : 0xc0 + c.toNat / 64 ≤ 0xdf)]
    rw [if_pos (by simp only [isCont, decide_eq_true_eq]; omega)]
    have hmod : c.toNat % 64 + 64 * (c.toNat / 64) = c.toNat := Nat.mod_add_div _ _
    rw [show 0xc0 + c.toNat / 64 - 0xc0 = c.toNat / 64 from by omega,
      show 0x80 + c.toNat % 64 - 0x80 = c.toNat % 64 from by omega,
      show c.toNat / 64 * 64 + c.toNat % 64 = c.toNat from by omega,
      Char.ofNat_toNat]
  by_cases h3 : c.toNat < 0x10000
  · simp only [utf8EncodeChar, if_neg h1, if_neg h2, if_pos h3, List.cons_append,
      List.nil_append]
    have hq1 : c.toNat / 64 % 64 + 64 * (c.toNat / 4096) = c.toNat / 64 := by
      rw [show (4096 : Nat) = 64 * 64 from rfl, ← Nat.div_div_eq_div_mul]
      exact Nat.mod_add_div _ _
    have hq0 : c.toNat % 64 + 64 * (c.toNat / 64) = c.toNat := Nat.mod_add_div _ _
    have hd1 : c.toNat / 4096 ≤ 0xf := by omega
    have hm1 : c.toNat / 64 % 64 < 64 := Nat.mod_lt _ (by omega)
    have hm0 : c.toNat % 64 < 64 := Nat.mod_lt _ (by omega)
    rw [utf8DecodeStrict.eq_def]
    simp only [if_neg (by omega : ¬(0xe0 + c.toNat / 4096 < 0x80)),
      if_neg (by omega : ¬(0xe0 + c.toNat / 4096 < 0xc2)),
      if_neg (by omega : ¬(0xe0 + c.toNat / 4096 ≤ 0xdf)),
      if_pos (by omega : 0xe0 + c.toNat / 4096 ≤ 0xef)]
    rw [if_pos ?hc1]
    case hc1 =>
      simp only [cont1ok, isCont]
      split
      · next he0 =>
        rw [decide_eq_true_eq]
        omega
      split
      · next hed =>
        rw [decide_eq_true_eq]
        omega
      split
      · next hf0 => omega
      split
      · next hf4 => omega
      · rw [decide_eq_true_eq]
        omega
    rw [if_pos (by simp only [isCont, decide_eq_true_eq]; omega)]
    rw [show 0xe0 + c.toNat / 4096 - 0xe0 = c.toNat / 4096 from by omega,
      show 0x80 + c.toNat / 64 % 64 - 0x80 = c.toNat / 64 % 64 from by omega,
      show 0x80 + c.toNat % 64 - 0x80 = c.toNat % 64 from by omega,
      show c.toNat / 4096 * 4096 + c.toNat / 64 % 64 * 64 + c.toNat % 64 = c.toNat from by omega,
      Char.ofNat_toNat]
  · simp only [utf8EncodeChar, if_neg h1, if_neg h2, if_neg h3, List.cons_append,
      List.nil_append]
    have hlt : c.toNat < 0x110000 := by omega
    have hq2 : c.toNat / 4096 % 64 + 64 * (c.toNat / 262144) = c.toNat / 4096 := by
      rw [show (262144 : Nat) = 4096 * 64 from rfl, ← Nat.div_div_eq_div_mul]
      exact Nat.mod_add_div _ _
    have hq1 : c.toNat / 64 % 64 + 64 * (c.toNat / 4096) = c.toNat / 64 := by
      rw [show (4096 : Nat) = 64 * 64 from rfl, ← Nat.div_div_eq_div_mul]
      exact Nat.mod_add_div _ _
    have hq0 : c.toNat % 64 + 64 * (c.toNat / 64) = c.toNat := Nat.mod_add_div _ _
    have hd1 : c.toNat / 262144 ≤ 4 := by omega
    have hm2 : c.toNat / 4096 % 64 < 64 := Nat.mod_lt _ (by omega)
    have hm1 : c.toNat / 64 % 64 < 64 := Nat.mod_lt _ (by omega)
    have hm0 : c.toNat % 64 < 64 := Nat.mod_lt _ (by omega)
    rw [utf8DecodeStrict.eq_def]
    simp only [if_neg (by omega : ¬(0xf0 + c.toNat / 262144 < 0x80)),
      if_neg (by omega : ¬(0xf0 + c.toNat / 262144 < 0xc2)),
      if_neg (by omega : ¬(0xf0 + c.toNat / 262144 ≤ 0xdf)),
      if_neg (by omega : ¬(0xf0 + c.toNat / 262144 ≤ 0xef)),
      if_pos (by omega : 0xf0 + c.toNat / 262144 ≤ 0xf4)]
    rw [if_pos ?hc1]
    case hc1 =>
      simp only [cont1ok, isCont]
      split
      · next he0 => omega
      split
      · next hed => omega
      split
      · next hf0 =>
        rw [decide_eq_true_eq]
        omega
      split
      · next hf4 =>
        rw [decide_eq_true_eq]
        omega
      · rw [decide_eq_true_eq]
        omega
    rw [if_pos (by simp only [isCont, decide_eq_true_eq]; omega)]
    rw [if_pos (by simp only [isCont, decide_eq_true_eq]; omega)]
    rw [show 0xf0 + c.toNat / 262144 - 0xf0 = c.toNat / 262144 from by omega,
      show 0x80 + c.toNat / 4096 % 64 - 0x80 = c.toNat / 4096 % 64 from by omega,
      show 0x80 + c.toNat / 64 % 64 - 0x80 = c.toNat / 64 % 64 from by omega,
      show 0x80 + c.toNat % 64 - 0x80 = c.toNat % 64 from by omega,
      show c.toNat / 262144 * 262144 + c.toNat / 4096 % 64 * 4096 + c.toNat / 64 % 64 * 64 +
        c.toNat % 64 = c.toNat from by omega,
      Char.ofNat_toNat]

theorem utf8DecodeReplace_encode : ∀ cs : List Char, utf8DecodeReplace (utf8Encode cs) = cs := by
  intro cs
  induction cs with
  | nil => rfl
  | cons c t ih =>
    have hsplit : utf8Encode (c :: t) = utf8EncodeChar c ++ utf8Encode t := by
      simp [utf8Encode]
    rw [hsplit, utf8DecodeReplace_encChar, ih]

theorem utf8DecodeStrict_encode : ∀ cs : List Char, utf8DecodeStrict (utf8Encode cs) = some cs := by
  intro cs
  induction cs with
  | nil => rfl
  | cons c t ih =>
    have hsplit : utf8Encode (c :: t) = utf8EncodeChar c ++ utf8Encode t := by
      simp [utf8Encode]
    rw [hsplit, utf8DecodeStrict_encChar, ih, Option.map_some']

theorem feedAllBytes_encode : ∀ (chunks : List (List Char)) (st : SB),
    feedAllBytes st (chunks.map utf8Encode)
      = (utf8Encode (feedAll st chunks).1, (feedAll st chunks).2) := by
  intro chunks
  induction chunks with
  | nil => intro st; rfl
  | cons c cs ih =>
    intro st
    simp only [List.map_cons, feedAllBytes, feedAll, SB.process_chunk_bytes,
      utf8DecodeReplace_encode, ih, utf8Encode_append]

theorem streamFilterBytes_aligned (s e : List Char) (chunks : List (List Char)) :
    streamFilterBytes s e (chunks.map utf8Encode) = utf8Encode (streamFilter s e chunks) := by
  simp only [streamFilterBytes, streamFilter, feedAllBytes_encode, SB.flush_bytes, SB.flush,
    utf8Encode_append]

/-- Claim C1 (counterexample).  The claim quantifies over every tag pair, but
for the pair `start = "ab"`, `end = "ba"` on the single-chunk byte stream of
the text `"aba"` the streaming filter emits nothing (it finds `"ba"` at
offset 1, overlapping the start tag at offset 0, and discards the whole
buffer), while the non-greedy regex removal needs an end-tag occurrence
after the start tag, finds none, and leaves `"aba"` intact. -/
theorem c1_counterexample :
    streamFilterBytes ("ab".toList) ("ba".toList) [[97, 98, 97]]
      ≠ utf8Encode (batchFilter ("ab".toList) ("ba".toList) ("aba".toList)) := by decide

/-- Claim C1 (amended): for every tag pair with a non-empty end tag in which
the start tag has at most 1025 characters and no occurrence of the end tag
can begin inside an occurrence of the start tag, and for every partition of
a text into chunks at character boundaries, the concatenation of the byte
outputs of `StreamBuffer.process_chunk` over the chunks followed by the
output of `StreamBuffer.flush` equals the UTF-8 encoding of the single-pass
non-greedy multi-line regex removal of start-tag...end-tag spans applied to
the unchunked text — chunk boundaries never change the output.  (An empty
start tag is allowed: both sides then repeatedly delete through the first
end-tag occurrence.) -/
theorem c1_streaming_equals_batch {s e : List Char} (he : e ≠ [])
    (hlen : s.length ≤ 1025) (hov : overlapFree s e) (chunks : List (List Char)) :
    streamFilterBytes s e (chunks.map utf8Encode)
      = utf8Encode (batchFilter s e chunks.flatten) := by
  rw [streamFilterBytes_aligned]
  by_cases hs : s = []
  · subst hs
    rw [streamFilter_nil_start he]
  · rw [streamFilter_eq_batchFilter hs he hlen hov]

/-- Witness for C1's amended theorem at the default tag pair, with a tag
split across three chunks. -/
theorem c1_witness :
    streamFilterBytes ("<think>".toList) ("</think>".toList)
        (["a<thi".toList, "nk>b</th".toList, "ink>c".toList].map utf8Encode)
      = utf8Encode (batchFilter ("<think>".toList) ("</think>".toList)
          (["a<thi".toList, "nk>b</th".toList, "ink>c".toList].flatten)) :=
  c1_streaming_equals_batch (by decide) (by decide) (by decide) _

theorem sbLoop_buffer_bound {s e : List Char} (he : e ≠ []) :
    ∀ (fuel : Nat) (b : List Char), b.length < fuel →
      pyFind s (sbLoop s e fuel b).2 = none → ((sbLoop s e fuel b).2).length ≤ 1024 := by
  intro fuel
  induction fuel with
  | zero => intro b hb; exact absurd hb (Nat.not_lt_zero _)
  | succ f ih =>
    intro b hb
    rcases hfind : pyFind s b with _ | p
    · by_cases hlong : b.length > 1024
      · simp only [sbLoop, hfind, if_pos hlong]
        intro _
        rw [List.length_drop]
        omega
      · simp only [sbLoop, hfind, if_neg hlong]
        intro _
        omega
    · rcases hfe : pyFind e (b.drop p) with _ | q2
      · simp only [sbLoop, hfind, hfe]
        intro hcon
        have hsome : pyFind s (b.drop p) = some 0 := by
          rw [pyFind_some_iff]
          refine ⟨by simpa using (pyFind_some_iff.mp hfind).1, by omega⟩
        rw [hsome] at hcon
        cases hcon
      · have helen : 0 < e.length := List.length_pos.mpr he
        have hq2le : q2 + e.length ≤ b.length - p := by
          have h2 := pyFind_some_prefix_le he hfe
          rwa [List.length_drop] at h2
        simp only [sbLoop, hfind, hfe]
        exact ih _ (by rw [List.length_drop, List.length_drop]; omega)

/-- Claim C10: for non-empty start and end tags, on construction, after every
call to `process_chunk` (from any state carrying those tags), and after every
call to `flush`, if the start-tag literal does not occur anywhere in the
internal buffer then the buffer holds at most 1024 characters — the buffer
can exceed 1024 characters only while an unmatched start-tag occurrence is
being retained. -/
theorem c10_buffer_bound {s e : List Char} (_hs : s ≠ []) (he : e ≠ []) :
    (pyFind s (SB.init s e).buffer = none → ((SB.init s e).buffer).length ≤ 1024) ∧
    (∀ (st : SB) (chunk : List Char), st.start_tag = s → st.end_tag = e →
      pyFind s ((st.process_chunk chunk).2).buffer = none →
        (((st.process_chunk chunk).2).buffer).length ≤ 1024) ∧
    (∀ st : SB, pyFind s ((st.flush).2).buffer = none →
      (((st.flush).2).buffer).length ≤ 1024) := by
  refine ⟨fun _ => by simp [SB.init], ?_, fun st _ => by simp [SB.flush]⟩
  intro st chunk hst hen
  subst hst
  subst hen
  simp only [SB.process_chunk]
  exact sbLoop_buffer_bound he _ _ (by omega)

/-- Witness for C10 at the default tags: processing a tag-free chunk from the
initial state leaves at most 1024 characters buffered. -/
theorem c10_witness :
    (((SB.init ("<think>".toList) ("</think>".toList)).process_chunk
        ("hello".toList)).2.buffer).length ≤ 1024 :=
  (c10_buffer_bound (by decide) (by decide)).2.1
    (SB.init ("<think>".toList) ("</think>".toList)) ("hello".toList) rfl rfl (by decide)

/-- Claim C2 (refuting evaluation).  The streaming filter decodes each byte
chunk independently with `errors="replace"` (cot_proxy.py line 51), so a
chunk boundary inside the two-byte character U+00E9 is not survived: the
unchunked bytes `C3 A9` decode, stream and flush to U+00E9 itself, but the
same bytes split as `[C3] [A9]` stream to two U+FFFD replacement characters
— the emitted output does not reproduce the original codepoints even though
no tag span is involved. -/
theorem c2_split_codepoint_corrupts :
    utf8DecodeReplace [0xc3, 0xa9] = [Char.ofNat 0xe9] ∧
    streamFilterBytes ("<think>".toList) ("</think>".toList) [[0xc3, 0xa9]]
      = [0xc3, 0xa9] ∧
    streamFilterBytes ("<think>".toList) ("</think>".toList) [[0xc3], [0xa9]]
      = utf8Encode [replChar, replChar] := by decide

/-- Claim C3: `convert_param_value` applies its rules in order — (1) empty or
case-insensitive `"null"` raw values yield `None` regardless of key; (2) an
unknown key returns the raw string unchanged; (3) a boolean-typed key yields
`true` exactly when the lowered value is `"true"` (anything else, `"1"` and
`"yes"` included, yields `false`); (4) an int- or float-typed key attempts
the numeric parse and returns the parsed number, falling back to the
original raw string when the parse fails; being a total function, the
operation never raises. -/
theorem c3_convert_param_value (key value : String) :
    ((value = "" ∨ pyLower value = "null") → convert_param_value key value = PyVal.none) ∧
    (¬(value = "" ∨ pyLower value = "null") → paramTypeGet key = Option.none →
      convert_param_value key value = PyVal.str value) ∧
    (¬(value = "" ∨ pyLower value = "null") → paramTypeGet key = some PTy.b →
      convert_param_value key value = PyVal.bool (pyLower value = "true")) ∧
    (¬(value = "" ∨ pyLower value = "null") → paramTypeGet key = some PTy.i →
      (∀ n, pyIntParse value = some n → convert_param_value key value = PyVal.int n) ∧
      (pyIntParse value = Option.none → convert_param_value key value = PyVal.str value)) ∧
    (¬(value = "" ∨ pyLower value = "null") → paramTypeGet key = some PTy.f →
      (∀ q, pyFloatParse value = some q → convert_param_value key value = PyVal.float q) ∧
      (pyFloatParse value = Option.none → convert_param_value key value = PyVal.str value)) := by
  refine ⟨fun h => by simp only [convert_param_value, if_pos h], ?_, ?_, ?_, ?_⟩
  · intro h hk
    simp only [convert_param_value, if_neg h, hk]
  · intro h hk
    simp only [convert_param_value, if_neg h, hk]
  · intro h hk
    constructor
    · intro n hn
      simp only [convert_param_value, if_neg h, hk, hn]
    · intro hn
      simp only [convert_param_value, if_neg h, hk, hn]
  · intro h hk
    constructor
    · intro q hq
      simp only [convert_param_value, if_neg h, hk, hq]
    · intro hq
      simp only [convert_param_value, if_neg h, hk, hq]

/-- Witness for C3 exercising each rule: a null literal, an unknown key, the
asymmetric boolean rule on `"1"`, an int success, an int failure falling
back to the raw string, and a float success. -/
theorem c3_witness :
    convert_param_value ("temperature") ("NULL") = PyVal.none ∧
    convert_param_value ("unknown_param") ("123.45") = PyVal.str ("123.45") ∧
    convert_param_value ("stream") ("1") = PyVal.bool false ∧
    convert_param_value ("mirostat") ("TRUE") = PyVal.bool true ∧
    convert_param_value ("top_k") ("40") = PyVal.int 40 ∧
    convert_param_value ("top_k") ("10.5") = PyVal.str ("10.5") ∧
    convert_param_value ("temperature") ("0.7") = PyVal.float (PyFloat.finite 7 10) := by
  refine ⟨(c3_convert_param_value ("temperature") ("NULL")).1 (Or.inr (by decide)),
    (c3_convert_param_value ("unknown_param") ("123.45")).2.1 (by decide) (by decide),
    ?_, ?_, ?_, ?_, ?_⟩
  · have h := (c3_convert_param_value ("stream") ("1")).2.2.1 (by decide) (by decide)
    rw [h]
    decide
  · have h := (c3_convert_param_value ("mirostat") ("TRUE")).2.2.1 (by decide) (by decide)
    rw [h]
    decide
  · exact ((c3_convert_param_value ("top_k") ("40")).2.2.2.1 (by decide) (by decide)).1 40
      (by decide)
  · exact ((c3_convert_param_value ("top_k") ("10.5")).2.2.2.1 (by decide) (by decide)).2
      (by decide)
  · exact ((c3_convert_param_value ("temperature") ("0.7")).2.2.2.2 (by decide) (by decide)).1
      (PyFloat.finite 7 10) (by decide)

/-- Claim C4 (counterexample).  A request whose JSON body is the empty
object `{}` has no model name, and the table parsed from
`model=default,think_tag_start=<r>` has a `default` entry; the claim says
the `default` entry's directives are then applied, but the override block
runs under `if json_body:` (cot_proxy.py line 200) and the empty dict is
falsy, so the result keeps empty directives and the hardcoded tags — and
the same happens when no JSON body is present at all. -/
theorem c4_counterexample :
    (dget (parseLLMParams ("model=default,think_tag_start=<r>")) ("default".data)).isSome
        = true ∧
    resolveConfig (some ("model=default,think_tag_start=<r>")) Option.none Option.none
        (some (JVal.obj []))
      = some ⟨[], "<think>".data, "</think>".data, false⟩ ∧
    resolveConfig (some ("model=default,think_tag_start=<r>")) Option.none Option.none
        Option.none
      = some ⟨[], "<think>".data, "</think>".data, false⟩ := by decide

/-- Claim C4 (amended): override resolution applies only when the request
has a truthy (non-empty) JSON object body and `LLM_PARAMS` is set non-empty.
Then: a non-empty string model name found in the table selects that entry's
directives, tags and filtering flag; a non-empty model name absent from the
table selects empty directives with the fallback tags and filtering
disabled; a missing model key falls back to the `default` entry when one
exists.  With an absent or falsy body, or unset/empty `LLM_PARAMS`, empty
directives are used with the fallback tags (environment value first, then
the hardcoded `<think>`/`</think>`) and filtering disabled; a selected
entry's explicit `think_tag_start` beats both fallback layers. -/
theorem c4_override_resolution (lp : String) (envS envE : Option String) :
    (resolveConfig (some lp) envS envE Option.none
        = some ⟨[], (envS.getD ("<think>")).data, (envE.getD ("</think>")).data, false⟩) ∧
    (∀ b : JVal, jTruthy b = false →
      resolveConfig (some lp) envS envE (some b)
        = some ⟨[], (envS.getD ("<think>")).data, (envE.getD ("</think>")).data, false⟩) ∧
    (∀ fields : List (List Char × JVal), jTruthy (JVal.obj fields) = true →
      resolveConfig Option.none envS envE (some (JVal.obj fields))
          = some ⟨[], (envS.getD ("<think>")).data, (envE.getD ("</think>")).data, false⟩ ∧
      resolveConfig (some "") envS envE (some (JVal.obj fields))
          = some ⟨[], (envS.getD ("<think>")).data, (envE.getD ("</think>")).data, false⟩) ∧
    (∀ (fields : List (List Char × JVal)) (name : List Char)
        (c : List (List Char × CfgVal)), lp ≠ "" → jTruthy (JVal.obj fields) = true →
      jGet fields ("model".data) = some (JVal.str name) → name ≠ [] →
      dget (parseLLMParams lp) name = some c →
      resolveConfig (some lp) envS envE (some (JVal.obj fields))
        = some (applyConfig c (envS.getD ("<think>")).data (envE.getD ("</think>")).data)) ∧
    (∀ (fields : List (List Char × JVal)) (name : List Char),
      lp ≠ "" → jTruthy (JVal.obj fields) = true →
      jGet fields ("model".data) = some (JVal.str name) → name ≠ [] →
      dget (parseLLMParams lp) name = Option.none →
      resolveConfig (some lp) envS envE (some (JVal.obj fields))
        = some ⟨[], (envS.getD ("<think>")).data, (envE.getD ("</think>")).data, false⟩) ∧
    (∀ fields : List (List Char × JVal), lp ≠ "" → jTruthy (JVal.obj fields) = true →
      jGet fields ("model".data) = Option.none →
      resolveConfig (some lp) envS envE (some (JVal.obj fields))
        = some (resolveDefault (parseLLMParams lp) (envS.getD ("<think>")).data
            (envE.getD ("</think>")).data
            ⟨[], (envS.getD ("<think>")).data, (envE.getD ("</think>")).data, false⟩)) ∧
    (∀ (c : List (List Char × CfgVal)) (ds de s0 : List Char),
      dget c ("think_tag_start".data) = some (CfgVal.raw s0) →
      (applyConfig c ds de).startTag = s0) ∧
    (∀ (c : List (List Char × CfgVal)) (ds de : List Char),
      dget c ("think_tag_start".data) = Option.none →
      (applyConfig c ds de).startTag = ds) := by
  refine ⟨rfl, ?_, ?_, ?_, ?_, ?_, ?_, ?_⟩
  · intro b hb
    simp only [resolveConfig, hb, Bool.not_false, if_true]
  · intro fields htr
    refine ⟨?_, ?_⟩
    · simp only [resolveConfig, htr, Bool.not_true, if_false]
      simp
    · simp only [resolveConfig, htr, Bool.not_true, if_false]
      simp
  · intro fields name c hlp htr hm hname hfound
    have hne : name.isEmpty = false := by
      cases name with
      | nil => exact absurd rfl hname
      | cons a t => rfl
    simp only [resolveConfig, htr, Bool.not_true, if_false, if_neg hlp, hm, hne, hfound]
    simp
  · intro fields name hlp htr hm hname hfound
    have hne : name.isEmpty = false := by
      cases name with
      | nil => exact absurd rfl hname
      | cons a t => rfl
    simp only [resolveConfig, htr, Bool.not_true, if_false, if_neg hlp, hm, hne, hfound]
    simp
  · intro fields hlp htr hm
    simp only [resolveConfig, htr, Bool.not_true, if_false, if_neg hlp, hm]
    simp
  · intro c ds de s0 hget
    simp only [applyConfig, cfgTagGet, hget]
  · intro c ds de hget
    simp only [applyConfig, cfgTagGet, hget]

/-- Witness for C4's amended theorem: a found model entry is applied (its
tags and filtering flag win), and a model absent from the table falls back
to hardcoded tags with filtering off. -/
theorem c4_witness :
    resolveConfig (some ("model=m1,think_tag_start=<a>,enable_think_tag_filtering=true"))
        Option.none Option.none (some (JVal.obj [("model".data, JVal.str ("m1".data))]))
      = some (applyConfig
          [("think_tag_start".data, CfgVal.raw ("<a>".data)),
            ("enable_think_tag_filtering".data, CfgVal.flag true)]
          ("<think>".data) ("</think>".data)) ∧
    resolveConfig (some ("model=m1,think_tag_start=<a>")) Option.none Option.none
        (some (JVal.obj [("model".data, JVal.str ("zz".data))]))
      = some ⟨[], "<think>".data, "</think>".data, false⟩ :=
  ⟨(c4_override_resolution ("model=m1,think_tag_start=<a>,enable_think_tag_filtering=true")
        Option.none Option.none).2.2.2.1
      [("model".data, JVal.str ("m1".data))] ("m1".data)
      [("think_tag_start".data, CfgVal.raw ("<a>".data)),
        ("enable_think_tag_filtering".data, CfgVal.flag true)]
      (by decide) (by decide) (by decide) (by decide) (by decide),
    (c4_override_resolution ("model=m1,think_tag_start=<a>") Option.none Option.none).2.2.2.2.1
      [("model".data, JVal.str ("zz".data))] ("zz".data)
      (by decide) (by decide) (by decide) (by decide) (by decide)⟩

theorem dget_dsetk_self {α : Type} (d : List (List Char × α)) (k : List Char) (v : α) :
    dget (dsetk d k v) k = some v := by
  induction d with
  | nil => simp [dget, dsetk]
  | cons p t ih =>
    rcases p with ⟨k2, v2⟩
    by_cases hk : k2 = k
    · simp [dsetk, hk, dget]
    · have hbeq : (k2 == k) = false := by
        simpa using hk
      simp only [dsetk, if_neg hk, dget, List.find?]
      rw [hbeq]
      exact ih

/-- Claim C5: a `;`-separated entry whose trimmed text does not start with
`model=` is discarded without affecting the parsing of any other entry — the
table built with the malformed entry inserted anywhere equals the table
built without it — and when two entries declare the same model name, the
later entry's directive dict replaces the earlier one's in the table. -/
theorem c5_config_parsing :
    (∀ (l1 l2 : List (List Char)) (m : List Char),
      (pyStripL m).isEmpty = true ∨ ("model=".data.isPrefixOf (pyStripL m)) = false →
      parseLLMParamsEntries (l1 ++ m :: l2) = parseLLMParamsEntries (l1 ++ l2)) ∧
    (∀ (l : List (List Char)) (ent n : List Char) (c : List (List Char × CfgVal)),
      parseEntry ent = some (n, c) →
      dget (parseLLMParamsEntries (l ++ [ent])) n = some c) := by
  constructor
  · intro l1 l2 m hm
    have hnone : parseEntry m = Option.none := by
      rcases hm with hm | hm
      · simp [parseEntry, hm]
      · simp [parseEntry, hm]
    simp only [parseLLMParamsEntries, List.foldl_append, List.foldl_cons, hnone]
  · intro l ent n c hent
    simp only [parseLLMParamsEntries, List.foldl_append, List.foldl_cons, List.foldl_nil, hent]
    exact dget_dsetk_self _ _ _

/-- Witness for C5: the literal `malformed_entry` between two valid entries
changes nothing, and a duplicated model name resolves to the later entry's
directives. -/
theorem c5_witness :
    parseLLMParamsEntries
        (["model=a,top_k=1".data] ++ "malformed_entry".data :: ["model=b,top_k=2".data])
      = parseLLMParamsEntries (["model=a,top_k=1".data] ++ ["model=b,top_k=2".data]) ∧
    dget (parseLLMParamsEntries (["model=a,top_k=1".data] ++ ["model=a,top_k=9".data]))
        ("a".data)
      = some [("top_k".data, CfgVal.conv (PyVal.int 9))] :=
  ⟨c5_config_parsing.1 _ _ _ (Or.inr (by decide)),
    c5_config_parsing.2 ["model=a,top_k=1".data] ("model=a,top_k=9".data) ("a".data)
      [("top_k".data, CfgVal.conv (PyVal.int 9))] (by decide)⟩

theorem updRev_noText {s : List Char} : ∀ l : List JVal,
    (∀ q ∈ l, isTextPart q = false) → updateLastTextPartRev s l = some Option.none := by
  intro l
  induction l with
  | nil => intro _; rfl
  | cons p t ih =>
    intro h
    have hp : isTextPart p = false := h p (by simp)
    simp only [updateLastTextPartRev, hp, Bool.false_eq_true, if_false]
    rw [ih (fun q hq => h q (by simp [hq]))]
    rfl

theorem updRev_found {s : List Char} {d : List (List Char × JVal)} {tv : List Char}
    (htext : isTextPart (JVal.obj d) = true)
    (hget : jGet d ("text".data) = some (JVal.str tv)) :
    ∀ (l2r l1r : List JVal), (∀ q ∈ l2r, isTextPart q = false) →
      updateLastTextPartRev s (l2r ++ JVal.obj d :: l1r)
        = some (some (l2r ++ JVal.obj (dsetk d ("text".data) (JVal.str (tv ++ s))) :: l1r)) := by
  intro l2r
  induction l2r with
  | nil =>
    intro l1r _
    simp only [List.nil_append, updateLastTextPartRev, htext, if_true, hget, textAppend]
  | cons p t ih =>
    intro l1r h
    have hp : isTextPart p = false := h p (by simp)
    simp only [List.cons_append, updateLastTextPartRev, hp, Bool.false_eq_true, if_false,
      List.append_eq]
    rw [ih l1r (fun q hq => h q (by simp [hq]))]
    rfl

theorem appendToContentList_found {s : List Char} {d : List (List Char × JVal)}
    {tv : List Char} (htext : isTextPart (JVal.obj d) = true)
    (hget : jGet d ("text".data) = some (JVal.str tv)) (l1 l2 : List JVal)
    (h2 : ∀ q ∈ l2, isTextPart q = false) :
    appendToContentList (l1 ++ JVal.obj d :: l2) s
      = some (l1 ++ JVal.obj (dsetk d ("text".data) (JVal.str (tv ++ s))) :: l2) := by
  unfold appendToContentList
  have hrev : (l1 ++ JVal.obj d :: l2).reverse
      = l2.reverse ++ JVal.obj d :: l1.reverse := by
    rw [List.reverse_append, List.reverse_cons, List.append_assoc, List.singleton_append]
  rw [hrev, updRev_found htext hget l2.reverse l1.reverse
    (fun q hq => h2 q (List.mem_reverse.mp hq))]
  simp only [List.reverse_append, List.reverse_cons, List.reverse_reverse, List.append_assoc,
    List.singleton_append]

theorem appendToContentList_noText {s : List Char} (parts : List JVal)
    (h : ∀ q ∈ parts, isTextPart q = false) :
    appendToContentList parts s = some (parts ++ [newTextPart s]) := by
  unfold appendToContentList
  rw [updRev_noText _ (fun q hq => h q (List.mem_reverse.mp hq))]

/-- Claim C6 (counterexample).  On the body `{"messages": null}` the claim
says a new user message is created ("the body has no messages"), but the
code runs `json_body.setdefault('messages', [])`, which returns the
existing `None` without replacing it, and then calls `.append` on it — an
`AttributeError` the handler does not catch, so the request fails instead
of gaining a message. -/
theorem c6_counterexample :
    appendToLastUserMessage [("messages".data, JVal.null)] (" please".data) = Option.none ∧
    Option.none ≠ some (dsetk [("messages".data, JVal.null)] ("messages".data)
      (JVal.arr [newUserMsg (" please".data)])) := by decide

/-- Claim C6 (amended): for every JSON object body and non-empty directive
string, the mutation guarded by `if append_string and json_body:` behaves
as follows.  A falsy (empty) body is left untouched.  Otherwise: if the
`messages` key is absent or holds an empty list, a new user message with
the directive as content is created; if it holds a falsy non-list value
(such as `null`) the handler raises; if the last message's role is `user`
and its content is a plain string, the directive is concatenated onto it;
if its content is a structured list, the last text-typed part scanning from
the end has the directive appended to its text, or a new text part is
appended when no text part exists; if its content is neither a string nor a
list, the content is replaced by the directive string; and if the last
message's role is not `user`, a new trailing user message is appended with
the existing messages left unchanged. -/
theorem c6_append_to_last_user_message (body : List (List Char × JVal)) (s : List Char) :
    (∀ v : JVal, jTruthy v = false → s.isEmpty = false →
      applyAppendDirective s (some v) = some (some v)) ∧
    (jGet body ("messages".data) = Option.none →
      appendToLastUserMessage body s
        = some (dsetk body ("messages".data) (JVal.arr [newUserMsg s]))) ∧
    (jGet body ("messages".data) = some (JVal.arr []) →
      appendToLastUserMessage body s
        = some (dsetk body ("messages".data) (JVal.arr [newUserMsg s]))) ∧
    (jGet body ("messages".data) = some JVal.null →
      appendToLastUserMessage body s = Option.none) ∧
    (∀ (ms : List JVal) (msg : List (List Char × JVal)) (c : List Char),
      jGet body ("messages".data) = some (JVal.arr ms) →
      ms.getLast? = some (JVal.obj msg) →
      jGet msg ("role".data) = some (JVal.str ("user".data)) →
      jGet msg ("content".data) = some (JVal.str c) →
      appendToLastUserMessage body s
        = some (dsetk body ("messages".data)
            (JVal.arr (setLast ms
              (JVal.obj (dsetk msg ("content".data) (JVal.str (c ++ s)))))))) ∧
    (∀ (ms : List JVal) (msg d : List (List Char × JVal)) (tv : List Char)
        (l1 l2 : List JVal),
      jGet body ("messages".data) = some (JVal.arr ms) →
      ms.getLast? = some (JVal.obj msg) →
      jGet msg ("role".data) = some (JVal.str ("user".data)) →
      jGet msg ("content".data) = some (JVal.arr (l1 ++ JVal.obj d :: l2)) →
      isTextPart (JVal.obj d) = true → jGet d ("text".data) = some (JVal.str tv) →
      (∀ q ∈ l2, isTextPart q = false) →
      appendToLastUserMessage body s
        = some (dsetk body ("messages".data)
            (JVal.arr (setLast ms
              (JVal.obj (dsetk msg ("content".data)
                (JVal.arr (l1 ++ JVal.obj (dsetk d ("text".data) (JVal.str (tv ++ s)))
                  :: l2)))))))) ∧
    (∀ (ms : List JVal) (msg : List (List Char × JVal)) (parts : List JVal),
      jGet body ("messages".data) = some (JVal.arr ms) →
      ms.getLast? = some (JVal.obj msg) →
      jGet msg ("role".data) = some (JVal.str ("user".data)) →
      jGet msg ("content".data) = some (JVal.arr parts) →
      (∀ q ∈ parts, isTextPart q = false) →
      appendToLastUserMessage body s
        = some (dsetk body ("messages".data)
            (JVal.arr (setLast ms
              (JVal.obj (dsetk msg ("content".data)
                (JVal.arr (parts ++ [newTextPart s])))))))) ∧
    (∀ (ms : List JVal) (msg : List (List Char × JVal)) (v : JVal),
      jGet body ("messages".data) = some (JVal.arr ms) →
      ms.getLast? = some (JVal.obj msg) →
      jGet msg ("role".data) = some (JVal.str ("user".data)) →
      jGet msg ("content".data) = some v →
      (∀ c : List Char, v ≠ JVal.str c) → (∀ l : List JVal, v ≠ JVal.arr l) →
      appendToLastUserMessage body s
        = some (dsetk body ("messages".data)
            (JVal.arr (setLast ms
              (JVal.obj (dsetk msg ("content".data) (JVal.str s))))))) ∧
    (∀ (ms : List JVal) (msg : List (List Char × JVal)),
      jGet body ("messages".data) = some (JVal.arr ms) →
      ms.getLast? = some (JVal.obj msg) →
      ¬ jGet msg ("role".data) = some (JVal.str ("user".data)) →
      appendToLastUserMessage body s
        = some (dsetk body ("messages".data) (JVal.arr (ms ++ [newUserMsg s])))) := by
  refine ⟨?_, ?_, ?_, ?_, ?_, ?_, ?_, ?_, ?_⟩
  · intro v hv hs
    cases v <;> simp_all [applyAppendDirective, jTruthy]
  · intro h
    unfold appendToLastUserMessage
    rw [h]
  · intro h
    unfold appendToLastUserMessage
    rw [h]
    simp [jTruthy]
  · intro h
    unfold appendToLastUserMessage
    rw [h]
    simp [jTruthy]
  · intro ms msg c hmsgs hlast hrole hcontent
    have htr : jTruthy (JVal.arr ms) = true := by
      cases ms with
      | nil => cases hlast
      | cons a t => simp [jTruthy]
    simp only [appendToLastUserMessage, hmsgs, htr, Bool.not_true, if_false, hlast, hrole,
      if_pos rfl, hcontent]
    simp
  · intro ms msg d tv l1 l2 hmsgs hlast hrole hcontent htext hgettv h2
    have htr : jTruthy (JVal.arr ms) = true := by
      cases ms with
      | nil => cases hlast
      | cons a t => simp [jTruthy]
    simp only [appendToLastUserMessage, hmsgs, htr, Bool.not_true, if_false, hlast, hrole,
      if_pos rfl, hcontent]
    rw [appendToContentList_found htext hgettv l1 l2 h2]
    simp
  · intro ms msg parts hmsgs hlast hrole hcontent hnone
    have htr : jTruthy (JVal.arr ms) = true := by
      cases ms with
      | nil => cases hlast
      | cons a t => simp [jTruthy]
    simp only [appendToLastUserMessage, hmsgs, htr, Bool.not_true, if_false, hlast, hrole,
      if_pos rfl, hcontent]
    rw [appendToContentList_noText parts hnone]
    simp
  · intro ms msg v hmsgs hlast hrole hcontent hnstr hnarr
    have htr : jTruthy (JVal.arr ms) = true := by
      cases ms with
      | nil => cases hlast
      | cons a t => simp [jTruthy]
    cases v with
    | str c => exact absurd rfl (hnstr c)
    | arr l => exact absurd rfl (hnarr l)
    | null =>
      simp only [appendToLastUserMessage, hmsgs, htr, Bool.not_true, if_false, hlast, hrole,
        if_pos rfl, hcontent]
      simp
    | bool b =>
      simp only [appendToLastUserMessage, hmsgs, htr, Bool.not_true, if_false, hlast, hrole,
        if_pos rfl, hcontent]
      simp
    | num n =>
      simp only [appendToLastUserMessage, hmsgs, htr, Bool.not_true, if_false, hlast, hrole,
        if_pos rfl, hcontent]
      simp
    | obj fs =>
      simp only [appendToLastUserMessage, hmsgs, htr, Bool.not_true, if_false, hlast, hrole,
        if_pos rfl, hcontent]
      simp
  · intro ms msg hmsgs hlast hrole
    have htr : jTruthy (JVal.arr ms) = true := by
      cases ms with
      | nil => cases hlast
      | cons a t => simp [jTruthy]
    simp only [appendToLastUserMessage, hmsgs, htr, Bool.not_true, if_false, hlast,
      if_neg hrole]
    simp

/-- Witness for C6: appending " please" to a trailing user message with
string content concatenates, and a truthy body without a `messages` key
gains a fresh user message. -/
theorem c6_witness :
    appendToLastUserMessage
        [("messages".data, JVal.arr [JVal.obj [("role".data, JVal.str ("user".data)),
            ("content".data, JVal.str ("hi".data))]])] (" please".data)
      = some [("messages".data, JVal.arr [JVal.obj [("role".data, JVal.str ("user".data)),
            ("content".data, JVal.str ("hi please".data))]])] ∧
    appendToLastUserMessage [("x".data, JVal.num 1)] (" please".data)
      = some [("x".data, JVal.num 1),
          ("messages".data, JVal.arr [newUserMsg (" please".data)])] := by
  constructor
  · have h := (c6_append_to_last_user_message
        [("messages".data, JVal.arr [JVal.obj [("role".data, JVal.str ("user".data)),
          ("content".data, JVal.str ("hi".data))]])] (" please".data)).2.2.2.2.1
        [JVal.obj [("role".data, JVal.str ("user".data)),
          ("content".data, JVal.str ("hi".data))]]
        [("role".data, JVal.str ("user".data)), ("content".data, JVal.str ("hi".data))]
        ("hi".data) (by decide) (by decide) (by decide) (by decide)
    rw [h]
    decide
  · have h := (c6_append_to_last_user_message [("x".data, JVal.num 1)]
        (" please".data)).2.1 (by decide)
    rw [h]
    decide

example : jparse ("\x7b\"data\": []\x7d")
    = some (JVal.obj [("data".data, JVal.arr [])]) := by decide

example : jparse ("not json") = Option.none := by decide

example : jdump (JVal.obj [("a".data, JVal.num (-3)), ("b".data, JVal.arr [JVal.bool true])])
    = "\x7b\"a\": -3, \"b\": [true]\x7d" := by decide

/-- Claim C7 (counterexample).  The configuration `model=a,x=1;model=a`
declares the single model name `a`, but the augmentation loop appends one
descriptor per retained entry (cot_proxy.py lines 410-424), so `a` receives
two identical descriptors — not "exactly one per model name declared". -/
theorem c7_counterexample :
    declaredModelEntries (("model=a,x=1;model=a").data) = ["a".data, "a".data] ∧
    augmentModelsBody (some ("model=a,x=1;model=a")) 0 ("\x7b\"data\": []\x7d")
      = jdump (JVal.obj [("data".data,
          JVal.arr [pseudoModel ("a".data) 0, pseudoModel ("a".data) 0])]) := by decide

/-- Claim C7 (amended): for every non-streamed response on a model-listing
path, if the upstream body parses as JSON as an object, exactly one
synthetic descriptor of shape
`(id: name, object: "model", created: unix-seconds, owned_by: org literal)`
per retained configuration entry — in entry order, so a model name declared
in several entries yields one descriptor per declaration — is appended to
the object's `data` array, the array being created when absent; if the
body does not parse as JSON it is returned unmodified and the request does
not fail. -/
theorem c7_model_list_augmentation (lp : String) (now : Int) (decoded : String) :
    (jparse decoded = Option.none → augmentModelsBody (some lp) now decoded = decoded) ∧
    (∀ (fields : List (List Char × JVal)) (xs : List JVal), lp ≠ "" →
      jparse decoded = some (JVal.obj fields) →
      dget fields ("data".data) = some (JVal.arr xs) →
      augmentModelsBody (some lp) now decoded
        = jdump (JVal.obj (dsetk fields ("data".data)
            (JVal.arr (xs ++ (declaredModelEntries lp.data).map (fun n => pseudoModel n now)))))) ∧
    (∀ fields : List (List Char × JVal), lp ≠ "" →
      jparse decoded = some (JVal.obj fields) →
      dget fields ("data".data) = Option.none →
      augmentModelsBody (some lp) now decoded
        = jdump (JVal.obj (dsetk fields ("data".data)
            (JVal.arr ((declaredModelEntries lp.data).map (fun n => pseudoModel n now)))))) ∧
    (∀ name : List Char, pseudoModel name now
      = JVal.obj [("id".data, JVal.str name), ("object".data, JVal.str ("model".data)),
          ("created".data, JVal.num now),
          ("owned_by".data, JVal.str ("organization-owner".data))]) ∧
    (modelListStage ("models") (some lp) now decoded
      = augmentModelsBody (some lp) now decoded) ∧
    (∀ path : String, path ≠ "models" → path ≠ "v1/models" →
      modelListStage path (some lp) now decoded = decoded) := by
  refine ⟨?_, ?_, ?_, fun _ => rfl, ?_, ?_⟩
  · intro h
    simp only [augmentModelsBody, h]
  · intro fields xs hlp hparse hdata
    simp only [augmentModelsBody, hparse, Option.getD_some, if_neg hlp, hdata]
  · intro fields hlp hparse hdata
    simp only [augmentModelsBody, hparse, Option.getD_some, if_neg hlp, hdata]
  · simp [modelListStage]
  · intro path h1 h2
    simp [modelListStage, h1, h2]

/-- Witness for C7: a non-JSON upstream body passes through unmodified, and
a parsed object body gains one descriptor in its `data` array while its
other members survive. -/
theorem c7_witness :
    augmentModelsBody (some ("model=m")) 0 ("not json") = "not json" ∧
    augmentModelsBody (some ("model=m")) 5 ("\x7b\"data\": [], \"object\": \"list\"\x7d")
      = jdump (JVal.obj [("data".data, JVal.arr [pseudoModel ("m".data) 5]),
          ("object".data, JVal.str ("list".data))]) := by
  constructor
  · exact (c7_model_list_augmentation ("model=m") 0 ("not json")).1 (by decide)
  · have h := (c7_model_list_augmentation ("model=m") 5
        ("\x7b\"data\": [], \"object\": \"list\"\x7d")).2.1
        [("data".data, JVal.arr []), ("object".data, JVal.str ("list".data))] []
        (by decide) (by decide) (by decide)
    rw [h]
    decide

/-- Claim C8 (counterexample).  A TLS verification failure and an
unreachable-upstream connection error both map to HTTP 502 (cot_proxy.py
lines 361 and 368), so the three causes do not each get a status distinct
from the other two. -/
theorem c8_counterexample :
    failureStatus ConnectFailure.sslError = 502 ∧
    failureStatus ConnectFailure.connectionError = 502 ∧
    ¬ failureStatus ConnectFailure.sslError ≠ failureStatus ConnectFailure.connectionError := by
  decide

/-- Claim C8 (amended): upstream connection failures are fatal to the
request and surfaced as a structured JSON error body; a timeout yields 504,
distinct from both the TLS-verification failure and the
unreachable-upstream error, which share status 502; the concrete timeout
body parses as a JSON object with a single `error` member. -/
theorem c8_connect_failures (url msg : List Char) :
    failureStatus ConnectFailure.timeout = 504 ∧
    failureStatus ConnectFailure.sslError = 502 ∧
    failureStatus ConnectFailure.connectionError = 502 ∧
    failureStatus ConnectFailure.timeout ≠ failureStatus ConnectFailure.sslError ∧
    failureStatus ConnectFailure.timeout ≠ failureStatus ConnectFailure.connectionError ∧
    failureBody ConnectFailure.timeout url msg
      = "\x7b\"error\": \"Connection to ".data ++ url ++ (" timed out\"\x7d").data ∧
    failureBody ConnectFailure.sslError url msg
      = "\x7b\"error\": \"SSL verification failed: ".data ++ msg ++ ("\"\x7d").data ∧
    failureBody ConnectFailure.connectionError url msg
      = "\x7b\"error\": \"Failed to connect to ".data ++ url ++ (": ").data ++ msg ++
          ("\"\x7d").data ∧
    jparse ⟨failureBody ConnectFailure.timeout ("http://upstream/v1".data) []⟩
      = some (JVal.obj [("error".data,
          JVal.str ("Connection to http://upstream/v1 timed out".data))]) := by
  refine ⟨rfl, rfl, rfl, by decide, by decide, rfl, rfl, rfl, by decide⟩

/-- Claim C9 (counterexample).  An upstream 400 response whose body is the
single byte `0xFF` is not valid UTF-8: `content.decode('utf-8')`
(cot_proxy.py line 374) raises an uncaught `UnicodeDecodeError`, so the
proxy does not return the upstream body verbatim there. -/
theorem c9_counterexample :
    respond ⟨400, Option.none, [0xff]⟩ ("v1/chat/completions") Option.none 0 false false [] []
      = ProxyOutcome.crash := by decide

/-- Claim C9 (amended): for every upstream response with status 400 or
greater, the outcome ignores the streaming and filtering flags and the tag
pair entirely; when the body is valid UTF-8 (the encoding of some text) it
is returned verbatim as a direct response with the upstream status and
content type (defaulting to `application/json`), with no tag filtering and
no streaming pipeline; a body that is not valid UTF-8 makes the handler
raise instead. -/
theorem c9_error_passthrough (resp : UpstreamResponse) (path : String) (lp : Option String)
    (now : Int) (is1 is2 f1 f2 : Bool) (s1 e1 s2 e2 : List Char) (h : 400 ≤ resp.status) :
    respond resp path lp now is1 f1 s1 e1 = respond resp path lp now is2 f2 s2 e2 ∧
    (∀ txt : List Char, resp.body = utf8Encode txt →
      respond resp path lp now is1 f1 s1 e1
        = ProxyOutcome.direct resp.status txt
            (resp.contentType.getD ("application/json".data))) ∧
    (utf8DecodeStrict resp.body = Option.none →
      respond resp path lp now is1 f1 s1 e1 = ProxyOutcome.crash) := by
  refine ⟨?_, ?_, ?_⟩
  · simp only [respond, if_pos h]
  · intro txt htxt
    simp only [respond, if_pos h, htxt, utf8DecodeStrict_encode]
  · intro hdec
    simp only [respond, if_pos h, hdec]

/-- Witness for C9's amended theorem: a 404 with a valid-UTF-8 body comes
back verbatim with its content type, even with streaming requested and
filtering enabled. -/
theorem c9_witness :
    respond ⟨404, some ("text/plain".data), utf8Encode ("oops".data)⟩ ("v1/chat/completions")
        Option.none 0 true true ("<think>".data) ("</think>".data)
      = ProxyOutcome.direct 404 ("oops".data) ("text/plain".data) :=
  ((c9_error_passthrough ⟨404, some ("text/plain".data), utf8Encode ("oops".data)⟩
      ("v1/chat/completions") Option.none 0 true true true true ("<think>".data)
      ("</think>".data) ("<think>".data) ("</think>".data) (by decide)).2.1
    ("oops".data) rfl)
